import Mathlib

/-! FindMeATutor chat relay: a shallow embedding of `main.go`.

The relay part of `main.go` (`handleConnections`, `sendPreviousMessages`, `unsafeError`,
`handleMessages`, `storeInRedis`, `messageClients`, `messageClient`) is embedded as pure
functions over an explicit relay state.

* The global map `clients`, the channel `broadcaster` and the Redis list `chat_messages`
  are fields of `Relay`.
* Every effectful call (`WriteJSON`, `Close`, `RPush`, `ReadJSON`, a channel send) appends
  one `Event` to `Relay.trace`, oldest first, so that the order of effects can be stated.
* What the outside world answers (the result of a write, of a Redis command) is given by
  an `Env`; the answer may depend on the moment of the call, which is the length of the
  trace at that moment.
* `log.Fatal` ends a run with `Result.aborted`: the process stops there. A `panic` ends
  the function with `Result.panicked`. In `handleMessages`, which runs in a goroutine of
  its own, nobody recovers the panic and the process stops (`Result.aborted`). In
  `handleConnections`, an HTTP handler, the deferred `ws.Close()` runs and the HTTP server
  recovers the panic: only this handler is gone and the relay goes on.
* The channel `broadcaster` is unbuffered. A handler that sends on it waits until
  `handleMessages` receives; `Relay.broadcaster` lists the messages of the waiting senders
  in the order `handleMessages` receives them.
-/

namespace Chat

/-! ## Data model -/

/-- The Go struct `ChatMessage` (`main.go` lines 21-24). -/
structure ChatMessage where
  Username : String
  Text : String
deriving DecidableEq, Repr

/-- A `*websocket.Conn`: only the identity of the pointer matters. -/
abbrev Conn := Nat

/-- The Go `error` values that the relay tells apart. A nil error is `none : Option Err`. -/
inductive Err where
  /-- A `*websocket.CloseError` with its `Code` and `Text`. -/
  | closeError (code : Int) (text : String)
  /-- The sentinel `io.EOF`. -/
  | eof
  /-- Every other error value. -/
  | other (text : String)
deriving DecidableEq, Repr

/-- The constant `websocket.CloseGoingAway`. -/
def CloseGoingAway : Int := 1001

/-- The library function `websocket.IsCloseError(err, codes...)`: `err` is a
`*CloseError` whose code is one of `codes`. -/
def IsCloseError (err : Option Err) (codes : List Int) : Bool :=
  match err with
  | some (Err.closeError code _) => codes.contains code
  | _ => false

/-- Source `unsafeError` (`main.go` lines 80-82). -/
def unsafeError (err : Option Err) : Bool :=
  !IsCloseError err [CloseGoingAway] && err != some Err.eof

/-! ## The JSON text of a `ChatMessage`

`json.Marshal` and `json.Unmarshal` belong to the Go standard library. They are modelled
here for the one type the relay uses them with. Go strings that hold valid UTF-8 are
sequences of code points, that is, Lean `String`s. -/

/-- The table `hex` of `encoding/json`. -/
def hexDigit (n : Nat) : Char :=
  if n = 0 then '0' else if n = 1 then '1' else if n = 2 then '2' else if n = 3 then '3'
  else if n = 4 then '4' else if n = 5 then '5' else if n = 6 then '6' else if n = 7 then '7'
  else if n = 8 then '8' else if n = 9 then '9' else if n = 10 then 'a' else if n = 11 then 'b'
  else if n = 12 then 'c' else if n = 13 then 'd' else if n = 14 then 'e' else 'f'

/-- What the encoder of `encoding/json` writes for one code point of a string, with
`escapeHTML` on as `json.Marshal` has it: a quote and a backslash get a backslash, line
feed, carriage return and tab their short escapes, the other code points below 0x20 and
`<`, `>`, `&` the form `\u00XX`, U+2028 and U+2029 the form `\u202X`, and everything
else is copied. (Later Go releases write U+0008 and U+000C as `\b` and `\f`; the decoder
below reads both forms.) -/
def escapeChar (c : Char) : List Char :=
  if c = '\x22' then ['\x5c', '\x22']
  else if c = '\x5c' then ['\x5c', '\x5c']
  else if c = '\x0a' then ['\x5c', 'n']
  else if c = '\x0d' then ['\x5c', 'r']
  else if c = '\x09' then ['\x5c', 't']
  else if c.toNat < 0x20 ∨ c = '<' ∨ c = '>' ∨ c = '&' then
    ['\x5c', 'u', '0', '0', hexDigit (c.toNat / 16), hexDigit (c.toNat % 16)]
  else if c.toNat = 0x2028 ∨ c.toNat = 0x2029 then
    ['\x5c', 'u', '2', '0', '2', hexDigit (c.toNat % 16)]
  else [c]

/-- The JSON string literal of a Go string. -/
def quote (s : List Char) : List Char :=
  '\x22' :: (s.flatMap escapeChar ++ ['\x22'])

/-- The text `json.Marshal(msg)` returns for a `ChatMessage`: an object with the members
`username` and `text`, in the order of the struct's fields. For this type `json.Marshal`
never fails. -/
def marshal (msg : ChatMessage) : String :=
  String.mk ("\x7b\x22username\x22:".data ++ quote msg.Username.data
    ++ ",\x22text\x22:".data ++ quote msg.Text.data ++ "\x7d".data)

/-- The value of one hexadecimal digit, upper or lower case. -/
def hexVal (c : Char) : Option Nat :=
  if '0'.toNat ≤ c.toNat ∧ c.toNat ≤ '9'.toNat then some (c.toNat - '0'.toNat)
  else if 'a'.toNat ≤ c.toNat ∧ c.toNat ≤ 'f'.toNat then some (c.toNat - 'a'.toNat + 10)
  else if 'A'.toNat ≤ c.toNat ∧ c.toNat ≤ 'F'.toNat then some (c.toNat - 'A'.toNat + 10)
  else none

/-- The decoder's `getu4` on the four characters after `\u`. -/
def getu4 (a b c d : Char) : Option Nat :=
  match hexVal a, hexVal b, hexVal c, hexVal d with
  | some x, some y, some z, some w => some (((x * 16 + y) * 16 + z) * 16 + w)
  | _, _, _, _ => none

/-- The decoder's `getu4` at the head of the remaining input: `\uXXXX` or nothing. -/
def getu4At (l : List Char) : Option Nat :=
  match l with
  | e :: u :: a :: b :: c :: d :: _ =>
    if e = '\x5c' ∧ u = 'u' then getu4 a b c d else none
  | _ => none

/-- The character a one-letter escape stands for. -/
def simpleEscape (e : Char) : Option Char :=
  if e = '\x22' then some '\x22'
  else if e = '\x5c' then some '\x5c'
  else if e = '/' then some '/'
  else if e = 'b' then some '\x08'
  else if e = 'f' then some '\x0c'
  else if e = 'n' then some '\x0a'
  else if e = 'r' then some '\x0d'
  else if e = 't' then some '\x09'
  else none

/-- Puts a decoded character in front of the decoded rest. -/
def consChar (c : Char) (r : Option (List Char × List Char)) : Option (List Char × List Char) :=
  match r with
  | some (s, rest) => some (c :: s, rest)
  | none => none

/-- The Unicode replacement character U+FFFD. -/
def replacementChar : Char := Char.ofNat 0xFFFD

/-- The decoder of `encoding/json` on a string literal, from after the opening quote to
the closing quote: the decoded string and the input that follows the literal, or `none`
when the literal is not valid (a raw code point below 0x20, an unknown escape, the end of
the input). `\uXXXX` escapes of a surrogate pair give the code point of the pair, a
surrogate alone gives U+FFFD. -/
def unquoteBody : List Char → Option (List Char × List Char)
  | [] => none
  | c :: rest =>
    if c = '\x22' then some ([], rest)
    else if c = '\x5c' then
      match rest with
      | [] => none
      | e :: rest1 =>
        if e = 'u' then
          match rest1 with
          | a :: b :: c1 :: d :: rest2 =>
            let after1 := unquoteBody rest2
            let after2 :=
              match rest2 with
              | _ :: _ :: _ :: _ :: _ :: _ :: rest3 => unquoteBody rest3
              | _ => none
            match getu4 a b c1 d with
            | none => none
            | some r =>
              if 0xD800 ≤ r ∧ r < 0xE000 then
                match getu4At rest2 with
                | some r2 =>
                  if r < 0xDC00 ∧ 0xDC00 ≤ r2 ∧ r2 < 0xE000 then
                    consChar (Char.ofNat ((r - 0xD800) * 1024 + (r2 - 0xDC00) + 0x10000)) after2
                  else consChar replacementChar after1
                | none => consChar replacementChar after1
              else consChar (Char.ofNat r) after1
          | _ => none
        else
          match simpleEscape e with
          | some ch => consChar ch (unquoteBody rest1)
          | none => none
    else if c.toNat < 0x20 then none
    else consChar c (unquoteBody rest)

/-- Removes a fixed prefix from the input. -/
def stripPrefix (p l : List Char) : Option (List Char) :=
  if p.isPrefixOf l then some (l.drop p.length) else none

/-- What `json.Unmarshal` stores in a zero `ChatMessage` for a text of the shape
`json.Marshal` produces for that type, an object with a `username` member and a `text`
member whose values are string literals, without white space; `none` for every other
text. -/
def unmarshalObject (l : List Char) : Option ChatMessage :=
  match stripPrefix "\x7b\x22username\x22:\x22".data l with
  | none => none
  | some l1 =>
    match unquoteBody l1 with
    | none => none
    | some (u, l2) =>
      match stripPrefix ",\x22text\x22:\x22".data l2 with
      | none => none
      | some l3 =>
        match unquoteBody l3 with
        | none => none
        | some (t, l4) =>
          if l4 = ['\x7d'] then some ⟨String.mk u, String.mk t⟩ else none

/-- Source `json.Unmarshal([]byte(chatMessage), &msg)` on a zero `msg`, the error thrown
away (`main.go` lines 73-74): the decoded message for a text of the shape `json.Marshal`
produces, and for every other text whatever the library leaves in `msg`, which is not
modelled and is taken as the parameter `orElse`. -/
def unmarshal (orElse : String → ChatMessage) (chatMessage : String) : ChatMessage :=
  match unmarshalObject chatMessage.data with
  | some msg => msg
  | none => orElse chatMessage

/-! ## Relay state and effects -/

/-- One effect of the relay on the outside world or on its channel. -/
inductive Event where
  /-- A call `rdb.RPush("chat_messages", record)` that succeeded. -/
  | rpush (record : String)
  /-- A call `c.WriteJSON(msg)` and the error it returned (`none` is nil). -/
  | write (c : Conn) (msg : ChatMessage) (err : Option Err)
  /-- A call `c.Close()`. -/
  | close (c : Conn)
  /-- A call `c.ReadJSON(&msg)` that returned: the message, or `none` for an error. -/
  | read (c : Conn) (msg : Option ChatMessage)
  /-- A send `broadcaster <- msg`. -/
  | send (msg : ChatMessage)
deriving DecidableEq, Repr

/-- The process-wide state of the relay. -/
structure Relay where
  /-- The keys of the map `clients`, in the order a `range` produces them. -/
  clients : List Conn
  /-- The messages sent on the channel `broadcaster` and not yet received, oldest first. -/
  broadcaster : List ChatMessage
  /-- The Redis list `chat_messages`. -/
  history : List String
  /-- The effects so far, oldest first. -/
  trace : List Event
deriving DecidableEq, Repr

/-- The answers of the outside world. The `Nat` argument is the moment of the call, the
length of the trace at that moment. -/
structure Env where
  /-- The error returned by `c.WriteJSON(msg)`. -/
  writeJSON : Nat → Conn → ChatMessage → Option Err
  /-- The error of `rdb.RPush("chat_messages", record)`. -/
  rpush : Nat → String → Option Err
  /-- The error of `rdb.Exists("chat_messages")`. -/
  existsErr : Nat → Option Err
  /-- The error of `rdb.LRange("chat_messages", 0, -1)`. -/
  lrangeErr : Nat → Option Err
  /-- What `json.Unmarshal` leaves in a zero `ChatMessage` for a text that does not have
  the shape `json.Marshal` produces. -/
  unmarshalElse : String → ChatMessage

/-- How a run of a function ends. -/
inductive Result where
  /-- The function returned. -/
  | returned (s : Relay)
  /-- The function waits for input the run does not supply (`ReadJSON`, a channel receive). -/
  | blocked (s : Relay)
  /-- The process was ended, by `log.Fatal` or by a panic that nobody recovers. -/
  | aborted (s : Relay)
  /-- The function ended in a `panic`. -/
  | panicked (s : Relay)
deriving DecidableEq, Repr

/-- The relay state at the end of a run. -/
def Result.state : Result → Relay
  | .returned s => s
  | .blocked s => s
  | .aborted s => s
  | .panicked s => s

/-- Appends one effect to the trace. -/
def Relay.log (s : Relay) (e : Event) : Relay :=
  { s with trace := s.trace ++ [e] }

/-- The Go statement `clients[ws] = true` on the keys of the map. -/
def addClient (ws : Conn) (clients : List Conn) : List Conn :=
  if ws ∈ clients then clients else clients ++ [ws]

/-- The Go statement `delete(clients, ws)` on the keys of the map. -/
def deleteClient (ws : Conn) (clients : List Conn) : List Conn :=
  clients.filter (fun c => c != ws)

/-! ## The functions of `main.go` -/

/-- Source `messageClient` (`main.go` lines 112-119). -/
def messageClient (env : Env) (client : Conn) (msg : ChatMessage) (s : Relay) : Relay :=
  let err := env.writeJSON s.trace.length client msg
  let s1 := s.log (Event.write client msg err)
  if err ≠ none ∧ unsafeError err = true then
    { s1.log (Event.close client) with clients := deleteClient client s1.clients }
  else s1

/-- The loop `for client := range clients` of `messageClients` over the keys still to
visit. A key deleted from the map before the loop reaches it is not produced, as the Go
specification says. -/
def rangeClients (env : Env) (msg : ChatMessage) : List Conn → Relay → Relay
  | [], s => s
  | client :: rest, s =>
    if client ∈ s.clients then rangeClients env msg rest (messageClient env client msg s)
    else rangeClients env msg rest s

/-- Source `messageClients` (`main.go` lines 105-110). -/
def messageClients (env : Env) (msg : ChatMessage) (s : Relay) : Relay :=
  rangeClients env msg s.clients s

/-- Source `storeInRedis` (`main.go` lines 94-103). -/
def storeInRedis (env : Env) (msg : ChatMessage) (s : Relay) : Result :=
  let json := marshal msg
  match env.rpush s.trace.length json with
  | some _ => Result.panicked s
  | none => Result.returned { s.log (Event.rpush json) with history := s.history ++ [json] }

/-- One turn of the loop of `handleMessages` (`main.go` lines 86-90) that receives `msg`
from the channel and leaves `rest` in it. A panic of `storeInRedis` is not recovered in
the goroutine of `handleMessages`: the process ends. -/
def handleMessagesTurn (env : Env) (msg : ChatMessage) (rest : List ChatMessage)
    (s : Relay) : Result :=
  match storeInRedis env msg { s with broadcaster := rest } with
  | Result.returned s1 => Result.returned (messageClients env msg s1)
  | r => Result.aborted r.state

/-- The loop of `handleMessages` over the content of the channel. -/
def handleMessagesLoop (env : Env) : List ChatMessage → Relay → Result
  | [], s => Result.blocked s
  | msg :: rest, s =>
    match handleMessagesTurn env msg rest s with
    | Result.returned s1 => handleMessagesLoop env rest s1
    | r => r

/-- Source `handleMessages` (`main.go` lines 84-92), run until the channel is empty. -/
def handleMessages (env : Env) (s : Relay) : Result :=
  handleMessagesLoop env s.broadcaster s

/-- The loop of `sendPreviousMessages` (`main.go` lines 72-76). -/
def replayLoop (env : Env) (ws : Conn) : List String → Relay → Relay
  | [], s => s
  | chatMessage :: rest, s =>
    replayLoop env ws rest (messageClient env ws (unmarshal env.unmarshalElse chatMessage) s)

/-- Source `sendPreviousMessages` (`main.go` lines 65-77). -/
def sendPreviousMessages (env : Env) (ws : Conn) (s : Relay) : Result :=
  match env.lrangeErr s.trace.length with
  | some _ => Result.panicked s
  | none => Result.returned (replayLoop env ws s.history s)

/-- Source `rdb.Exists("chat_messages").Val()`: the number of keys that exist, and 0 when
the command failed. Redis keeps no empty list, so the key exists when the list has an
element. -/
def existsVal (env : Env) (s : Relay) : Int :=
  match env.existsErr s.trace.length with
  | some _ => 0
  | none => if s.history.isEmpty then 0 else 1

/-- Source `clients[ws] = true` of `handleConnections` (`main.go` line 45). -/
def register (ws : Conn) (s : Relay) : Relay :=
  { s with clients := addClient ws s.clients }

/-- Source replay of `handleConnections` (`main.go` lines 47-50). -/
def replay (env : Env) (ws : Conn) (s : Relay) : Result :=
  if existsVal env s ≠ 0 then sendPreviousMessages env ws s else Result.returned s

/-- One turn of the read loop of `handleConnections` (`main.go` lines 53-61) on the result
of `ws.ReadJSON(&msg)`: `returned` is the `break`, `blocked` the next turn. -/
def readTurn (ws : Conn) (frame : Except Err ChatMessage) (s : Relay) : Result :=
  match frame with
  | Except.error _ =>
    Result.returned { s.log (Event.read ws none) with clients := deleteClient ws s.clients }
  | Except.ok msg =>
    Result.blocked
      ({ s.log (Event.read ws (some msg)) with broadcaster := s.broadcaster ++ [msg] }.log
        (Event.send msg))

/-- The read loop of `handleConnections` (`main.go` lines 52-62) over the results of the
successive calls of `ReadJSON`. -/
def readLoop (ws : Conn) : List (Except Err ChatMessage) → Relay → Result
  | [], s => Result.blocked s
  | frame :: rest, s =>
    match readTurn ws frame s with
    | Result.blocked s1 => readLoop ws rest s1
    | r => r

/-- Source `handleConnections` (`main.go` lines 38-63). `upgrade` is the result of
`upgrader.Upgrade`, `frames` are the results of the calls of `ReadJSON`. The deferred
`ws.Close()` runs when the function returns and when `sendPreviousMessages` panics; the
panic leaves the function without the `delete(clients, ws)` of the read loop. -/
def handleConnections (env : Env) (upgrade : Except Err Conn)
    (frames : List (Except Err ChatMessage)) (s : Relay) : Result :=
  match upgrade with
  | Except.error _ => Result.aborted s
  | Except.ok ws =>
    match replay env ws (register ws s) with
    | Result.returned s1 =>
      match readLoop ws frames s1 with
      | Result.returned s2 => Result.returned (s2.log (Event.close ws))
      | r => r
    | r => Result.panicked (r.state.log (Event.close ws))

/-! ## Observations on a trace -/

/-- The effects of one call `messageClient(c, msg)` whose write returned `err`. -/
def sendEvents (c : Conn) (msg : ChatMessage) (err : Option Err) : List Event :=
  if err ≠ none ∧ unsafeError err = true then [Event.write c msg err, Event.close c]
  else [Event.write c msg err]

/-- The connection and the message of a call of `WriteJSON`. -/
def Event.written : Event → Option (Conn × ChatMessage)
  | Event.write c msg _ => some (c, msg)
  | _ => none

/-- The calls of `WriteJSON` in a trace, in order. -/
def writeCalls (tr : List Event) : List (Conn × ChatMessage) :=
  tr.filterMap Event.written

/-- The message of a call of `WriteJSON` on `c`, with the error it returned. -/
def Event.writtenTo (c : Conn) : Event → Option (ChatMessage × Option Err)
  | Event.write c1 msg err => if c1 = c then some (msg, err) else none
  | _ => none

/-- The calls of `WriteJSON` on connection `c` in a trace, in order: each message with the
error of the write. -/
def writesTo (c : Conn) (tr : List Event) : List (ChatMessage × Option Err) :=
  tr.filterMap (Event.writtenTo c)

/-- The record of a successful `RPush`. -/
def Event.pushed : Event → Option String
  | Event.rpush record => some record
  | _ => none

/-- The records appended to the history in a trace, in order. -/
def rpushed (tr : List Event) : List String :=
  tr.filterMap Event.pushed

/-- The effects between two states of one run. -/
def newEvents (before after : Relay) : List Event :=
  after.trace.drop before.trace.length

/-- A write result after which `messageClient` closes and removes the connection. -/
def failsUnsafe (err : Option Err) : Bool :=
  decide (err ≠ none ∧ unsafeError err = true)


/-! ## Sample inputs -/

/-- A world in which every write to connection 2 fails with a broken pipe, every write to
connection 3 with `io.EOF`, and everything else succeeds. -/
def sampleEnv : Env where
  writeJSON := fun _ c _ =>
    if c = 2 then some (Err.other "broken pipe") else if c = 3 then some Err.eof else none
  rpush := fun _ _ => none
  existsErr := fun _ => none
  lrangeErr := fun _ => none
  unmarshalElse := fun _ => ⟨"", ""⟩

/-- The message of the example of the specification. -/
def aliceHi : ChatMessage := ⟨"alice", "hi"⟩

/-- A second message. -/
def bobYo : ChatMessage := ⟨"bob", "yo"⟩

/-- A relay with three connections, nothing stored and nothing done yet. -/
def sampleRelay : Relay := ⟨[1, 2, 3], [], [], []⟩

/-- A relay with one earlier connection and two stored records. -/
def storedRelay : Relay := ⟨[1], [], [marshal aliceHi, marshal bobYo], []⟩

/-- A world like `sampleEnv` in which the command `Exists` fails. -/
def existsDownEnv : Env where
  writeJSON := sampleEnv.writeJSON
  rpush := fun _ _ => none
  existsErr := fun _ => some (Err.other "connection refused")
  lrangeErr := fun _ => none
  unmarshalElse := fun _ => ⟨"", ""⟩

/-- A world like `sampleEnv` in which the command `LRange` fails. -/
def lrangeDownEnv : Env where
  writeJSON := sampleEnv.writeJSON
  rpush := fun _ _ => none
  existsErr := fun _ => none
  lrangeErr := fun _ => some (Err.other "connection refused")
  unmarshalElse := fun _ => ⟨"", ""⟩

/-- The sample relay with two messages waiting in the channel. -/
def busyRelay : Relay := ⟨[1, 2, 3], [aliceHi, bobYo], ["old"], []⟩

/-- A world like `sampleEnv` in which the store refuses every append. -/
def storeDownEnv : Env where
  writeJSON := sampleEnv.writeJSON
  rpush := fun _ _ => some (Err.other "connection refused")
  existsErr := fun _ => none
  lrangeErr := fun _ => none
  unmarshalElse := fun _ => ⟨"", ""⟩

/-! ## The relay as a state machine -/

/-- Where the handler of a connection stands in `handleConnections`. -/
inductive Pc where
  /-- Before `clients[ws] = true` (`main.go` line 45). -/
  | connecting
  /-- Registered, before the replay. -/
  | registered
  /-- In the read loop. -/
  | reading
  /-- After `delete(clients, ws)` and the `break`: the handler has deregistered. -/
  | closed
  /-- Ended by the panic of `sendPreviousMessages`, without deregistering. -/
  | panicked
deriving DecidableEq, Repr

/-- The handler has registered its connection and has not yet deregistered it. -/
def Pc.active : Pc → Bool
  | Pc.registered => true
  | Pc.reading => true
  | _ => false

/-- The relay together with the position of every handler. -/
structure System where
  /-- The process-wide state. -/
  relay : Relay
  /-- The position of the handler of each connection. -/
  pc : Conn → Pc

/-- One step of a handler or of the broadcaster. -/
inductive Action where
  /-- The handler of `ws` registers it, after a successful handshake. -/
  | register (ws : Conn)
  /-- The handler of `ws` replays the history, or ends in a panic when `LRange` fails. -/
  | replay (ws : Conn)
  /-- The handler of `ws` gets the result `frame` of `ReadJSON`: it sends the message on
  the channel, or on an error deregisters and returns. -/
  | read (ws : Conn) (frame : Except Err ChatMessage)
  /-- The broadcaster receives one message, stores it and fans it out. -/
  | broadcast

/-- Sets the position of one handler. -/
def setPc (pc : Conn → Pc) (ws : Conn) (p : Pc) : Conn → Pc :=
  fun c => if c = ws then p else pc c

/-- The effect of one step, built from the pieces of `handleConnections` and
`handleMessages`; `none` when the step is not possible in this state or when the process
ends. A panic of the replay ends only the handler: its deferred `ws.Close()` runs and the
relay goes on. -/
def step (env : Env) (sys : System) : Action → Option System
  | Action.register ws =>
    if sys.pc ws = Pc.connecting then
      some ⟨register ws sys.relay, setPc sys.pc ws Pc.registered⟩
    else none
  | Action.replay ws =>
    if sys.pc ws = Pc.registered then
      match replay env ws sys.relay with
      | Result.returned s1 => some ⟨s1, setPc sys.pc ws Pc.reading⟩
      | Result.panicked s1 => some ⟨s1.log (Event.close ws), setPc sys.pc ws Pc.panicked⟩
      | _ => none
    else none
  | Action.read ws frame =>
    if sys.pc ws = Pc.reading then
      match readTurn ws frame sys.relay with
      | Result.blocked s1 => some ⟨s1, sys.pc⟩
      | Result.returned s1 => some ⟨s1.log (Event.close ws), setPc sys.pc ws Pc.closed⟩
      | _ => none
    else none
  | Action.broadcast =>
    match sys.relay.broadcaster with
    | [] => none
    | msg :: rest =>
      match handleMessagesTurn env msg rest sys.relay with
      | Result.returned s1 => some ⟨s1, sys.pc⟩
      | _ => none

/-- A sequence of steps. -/
def run (env : Env) : List Action → System → Option System
  | [], sys => some sys
  | a :: rest, sys =>
    match step env sys a with
    | some sys1 => run env rest sys1
    | none => none

/-- The relay at start: no connection, an empty channel and the history the store holds. -/
def initial (history : List String) : System :=
  ⟨⟨[], [], history, []⟩, fun _ => Pc.connecting⟩

/-- A write to `c` in the trace failed with a non-graceful error. -/
def failedWrite (c : Conn) (tr : List Event) : Prop :=
  ∃ m err, Event.write c m err ∈ tr ∧ err ≠ none ∧ unsafeError err = true

/-- The registry of `s1` is the one of `s` without exactly the connections that were
written to with a non-graceful failure in the effects between the two states. -/
def Shrinks (s s1 : Relay) : Prop :=
  s1.trace = s.trace ++ newEvents s s1
    ∧ s1.clients.Sublist s.clients
    ∧ (∀ c ∈ s.clients, c ∉ s1.clients → failedWrite c (newEvents s s1))
    ∧ (∀ c ∈ s1.clients, ¬ failedWrite c (newEvents s s1))

/-- The steps of the counterexample to the registry invariant: connection 2 registers,
replays, sends one message, and the fan-out of that message fails on it. -/
def brokenPipeRun : List Action :=
  [Action.register 2, Action.replay 2, Action.read 2 (Except.ok aliceHi), Action.broadcast]

/-- What holds of the registry in every state the relay reaches: a member's handler has
registered and has not deregistered; the connection of an active handler is a member
unless a write to it failed non-gracefully; no write to a member failed non-gracefully;
nothing was written to a connection before its handler registered it; and the keys are
distinct. -/
def RegistryInv (sys : System) : Prop :=
  (∀ c, c ∈ sys.relay.clients → (sys.pc c).active = true ∨ sys.pc c = Pc.panicked)
  ∧ (∀ c, (sys.pc c).active = true → c ∈ sys.relay.clients ∨ failedWrite c sys.relay.trace)
  ∧ (∀ c, c ∈ sys.relay.clients → ¬ failedWrite c sys.relay.trace)
  ∧ (∀ c m err, Event.write c m err ∈ sys.relay.trace → sys.pc c ≠ Pc.connecting)
  ∧ sys.relay.clients.Nodup

/-- The steps of a run in which the replay of connection 5 ends in a panic and connection 6
registers afterwards. -/
def panicRun : List Action :=
  [Action.register 5, Action.replay 5, Action.register 6]

/-- The state `panicRun` reaches from a history of one record when `LRange` fails. -/
def afterPanic : System :=
  ⟨⟨[5, 6], [], [marshal aliceHi], [Event.close 5]⟩,
    setPc (setPc (setPc (fun _ => Pc.connecting) 5 Pc.registered) 5 Pc.panicked) 6
      Pc.registered⟩

/-! ## The JSON round trip -/

theorem hexVal_hexDigit (k : Nat) (h : k < 16) : hexVal (hexDigit k) = some k := by
  interval_cases k <;> decide

theorem unquoteBody_cons_plain (c : Char) (tail : List Char)
    (h1 : c ≠ '\x22') (h2 : c ≠ '\x5c') (h3 : ¬ c.toNat < 0x20) :
    unquoteBody (c :: tail) = consChar c (unquoteBody tail) := by
  rw [unquoteBody.eq_def]
  simp only [h1, h2, h3, if_false]

theorem unquoteBody_simple (e ch : Char) (tail : List Char)
    (h1 : e ≠ 'u') (h2 : simpleEscape e = some ch) :
    unquoteBody ('\x5c' :: e :: tail) = consChar ch (unquoteBody tail) := by
  rw [unquoteBody.eq_def]
  simp [h1, h2]

theorem unquoteBody_u4 (a b c d : Char) (r : Nat) (tail : List Char)
    (h1 : getu4 a b c d = some r) (h2 : r < 0xD800) :
    unquoteBody ('\x5c' :: 'u' :: a :: b :: c :: d :: tail)
      = consChar (Char.ofNat r) (unquoteBody tail) := by
  rw [unquoteBody.eq_def]
  have h3 : ¬ (0xD800 ≤ r ∧ r < 0xE000) := by omega
  simp [h1, h3]

theorem getu4_low (n : Nat) (h : n < 256) :
    getu4 '0' '0' (hexDigit (n / 16)) (hexDigit (n % 16)) = some n := by
  have h0 : hexVal '0' = some 0 := by decide
  have h1 := hexVal_hexDigit (n / 16) (by omega)
  have h2 := hexVal_hexDigit (n % 16) (by omega)
  unfold getu4
  rw [h0, h1, h2]
  simp only [Option.some.injEq]
  omega

theorem unquoteBody_escapeChar (c : Char) (tail : List Char) :
    unquoteBody (escapeChar c ++ tail) = consChar c (unquoteBody tail) := by
  unfold escapeChar
  by_cases h1 : c = '\x22'
  · subst h1
    exact unquoteBody_simple _ _ tail (by decide) (by decide)
  by_cases h2 : c = '\x5c'
  · subst h2
    exact unquoteBody_simple _ _ tail (by decide) (by decide)
  by_cases h3 : c = '\x0a'
  · subst h3
    exact unquoteBody_simple _ _ tail (by decide) (by decide)
  by_cases h4 : c = '\x0d'
  · subst h4
    exact unquoteBody_simple _ _ tail (by decide) (by decide)
  by_cases h5 : c = '\x09'
  · subst h5
    exact unquoteBody_simple _ _ tail (by decide) (by decide)
  rw [if_neg h1, if_neg h2, if_neg h3, if_neg h4, if_neg h5]
  by_cases h6 : c.toNat < 0x20 ∨ c = '<' ∨ c = '>' ∨ c = '&'
  · rw [if_pos h6]
    have hlt : c.toNat < 256 := by
      rcases h6 with h | h | h | h
      · omega
      · subst h; decide
      · subst h; decide
      · subst h; decide
    have := unquoteBody_u4 '0' '0' (hexDigit (c.toNat / 16)) (hexDigit (c.toNat % 16))
      c.toNat tail (getu4_low c.toNat hlt) (by omega)
    rw [Char.ofNat_toNat] at this
    exact this
  rw [if_neg h6]
  by_cases h7 : c.toNat = 0x2028 ∨ c.toNat = 0x2029
  · rw [if_pos h7]
    have hg : getu4 '2' '0' '2' (hexDigit (c.toNat % 16)) = some c.toNat := by
      rcases h7 with h | h <;> rw [h] <;> decide
    have := unquoteBody_u4 '2' '0' '2' (hexDigit (c.toNat % 16)) c.toNat tail hg
      (by rcases h7 with h | h <;> omega)
    rw [Char.ofNat_toNat] at this
    exact this
  rw [if_neg h7]
  exact unquoteBody_cons_plain c tail h1 h2 (fun h => h6 (Or.inl h))

theorem unquoteBody_quote (s rest : List Char) :
    unquoteBody (s.flatMap escapeChar ++ '\x22' :: rest) = some (s, rest) := by
  induction s with
  | nil =>
    rw [unquoteBody.eq_def]
    simp
  | cons c t ih =>
    rw [List.flatMap_cons, List.append_assoc, unquoteBody_escapeChar, ih]
    rfl

theorem stripPrefix_append (p l : List Char) : stripPrefix p (p ++ l) = some l := by
  unfold stripPrefix
  have : p.isPrefixOf (p ++ l) = true := by
    rw [List.isPrefixOf_iff_prefix]
    exact List.prefix_append p l
  rw [if_pos this, List.drop_left]

theorem unmarshalObject_marshal (msg : ChatMessage) :
    unmarshalObject (marshal msg).data = some msg := by
  have hshape : (marshal msg).data
      = "\x7b\x22username\x22:\x22".data
        ++ (msg.Username.data.flatMap escapeChar ++ '\x22'
          :: (",\x22text\x22:\x22".data
            ++ (msg.Text.data.flatMap escapeChar ++ '\x22' :: ['\x7d']))) := by
    simp [marshal, quote]
  rw [hshape]
  unfold unmarshalObject
  rw [stripPrefix_append]
  simp only [unquoteBody_quote, stripPrefix_append, if_true]

theorem unmarshal_marshal (orElse : String → ChatMessage) (msg : ChatMessage) :
    unmarshal orElse (marshal msg) = msg := by
  unfold unmarshal
  rw [unmarshalObject_marshal]

/-! ## Lemmas on the registry -/

theorem mem_deleteClient (ws d : Conn) (l : List Conn) :
    d ∈ deleteClient ws l ↔ d ∈ l ∧ d ≠ ws := by
  simp [deleteClient]

theorem deleteClient_of_not_mem (ws : Conn) (l : List Conn) (h : ws ∉ l) :
    deleteClient ws l = l := by
  unfold deleteClient
  rw [List.filter_eq_self]
  intro a ha
  have : a ≠ ws := fun e => h (e ▸ ha)
  simpa using this

theorem deleteClient_idem (ws : Conn) (l : List Conn) :
    deleteClient ws (deleteClient ws l) = deleteClient ws l := by
  apply deleteClient_of_not_mem
  simp [mem_deleteClient]

theorem nodup_deleteClient (ws : Conn) (l : List Conn) (h : l.Nodup) :
    (deleteClient ws l).Nodup :=
  h.filter _

theorem nodup_addClient (ws : Conn) (l : List Conn) (h : l.Nodup) :
    (addClient ws l).Nodup := by
  unfold addClient
  split
  · exact h
  · rename_i hn
    exact List.Nodup.append h (List.nodup_singleton ws) (by simpa using hn)

theorem mem_addClient (ws d : Conn) (l : List Conn) :
    d ∈ addClient ws l ↔ d ∈ l ∨ d = ws := by
  unfold addClient
  split
  · rename_i h
    constructor
    · exact Or.inl
    · rintro (h1 | h1)
      · exact h1
      · exact h1 ▸ h
  · simp

/-! ## Lemmas on `messageClient` -/

theorem messageClient_trace (env : Env) (c : Conn) (msg : ChatMessage) (s : Relay) :
    (messageClient env c msg s).trace
      = s.trace ++ sendEvents c msg (env.writeJSON s.trace.length c msg) := by
  unfold messageClient sendEvents
  by_cases h : env.writeJSON s.trace.length c msg ≠ none
      ∧ unsafeError (env.writeJSON s.trace.length c msg) = true
  · simp only [h, and_self, if_true, Relay.log, List.append_assoc, List.singleton_append, ne_eq,
      not_false_eq_true]
  · simp only [h, if_false, Relay.log]

theorem messageClient_clients (env : Env) (c : Conn) (msg : ChatMessage) (s : Relay) :
    (messageClient env c msg s).clients
      = if env.writeJSON s.trace.length c msg ≠ none
          ∧ unsafeError (env.writeJSON s.trace.length c msg) = true
        then deleteClient c s.clients else s.clients := by
  unfold messageClient
  by_cases h : env.writeJSON s.trace.length c msg ≠ none
      ∧ unsafeError (env.writeJSON s.trace.length c msg) = true
  · simp only [h, and_self, if_true, Relay.log, ne_eq, not_false_eq_true]
  · simp only [h, if_false, Relay.log]

theorem messageClient_history (env : Env) (c : Conn) (msg : ChatMessage) (s : Relay) :
    (messageClient env c msg s).history = s.history := by
  unfold messageClient
  simp only [Relay.log]
  split <;> rfl

theorem messageClient_broadcaster (env : Env) (c : Conn) (msg : ChatMessage) (s : Relay) :
    (messageClient env c msg s).broadcaster = s.broadcaster := by
  unfold messageClient
  simp only [Relay.log]
  split <;> rfl

theorem flatMap_congr_mem {α β : Type} (l : List α) (f g : α → List β)
    (h : ∀ x ∈ l, f x = g x) : l.flatMap f = l.flatMap g := by
  induction l with
  | nil => rfl
  | cons a t ih =>
    simp only [List.flatMap_cons]
    rw [h a (List.mem_cons_self a t), ih (fun x hx => h x (List.mem_cons_of_mem a hx))]

/-! ## Lemmas on `messageClients` -/

theorem rangeClients_spec (env : Env) (msg : ChatMessage) :
    ∀ (l : List Conn) (s : Relay), l.Nodup → (∀ c ∈ l, c ∈ s.clients) →
      ∃ errs : Conn → Option Err,
        (rangeClients env msg l s).trace
            = s.trace ++ l.flatMap (fun c => sendEvents c msg (errs c))
        ∧ (rangeClients env msg l s).clients
            = s.clients.filter (fun c => !(decide (c ∈ l) && failsUnsafe (errs c)))
        ∧ (∀ c ∈ l, ∃ t, errs c = env.writeJSON t c msg)
        ∧ (rangeClients env msg l s).history = s.history
        ∧ (rangeClients env msg l s).broadcaster = s.broadcaster := by
  intro l
  induction l with
  | nil =>
    intro s _ _
    refine ⟨fun _ => none, ?_, ?_, ?_, rfl, rfl⟩
    · simp [rangeClients]
    · simp [rangeClients]
    · intro c hc
      cases hc
  | cons c rest ih =>
    intro s hnd hmem
    have hc : c ∈ s.clients := hmem c (List.mem_cons_self c rest)
    have hcrest : c ∉ rest := (List.nodup_cons.mp hnd).1
    have hrest : rest.Nodup := (List.nodup_cons.mp hnd).2
    have hmem1 : ∀ d ∈ rest, d ∈ (messageClient env c msg s).clients := by
      intro d hd
      have hds : d ∈ s.clients := hmem d (List.mem_cons_of_mem c hd)
      have hdc : d ≠ c := fun e => hcrest (e ▸ hd)
      rw [messageClient_clients]
      split
      · exact (mem_deleteClient c d s.clients).mpr ⟨hds, hdc⟩
      · exact hds
    obtain ⟨errs1, htr, hcl, henv, hhist, hbr⟩ := ih (messageClient env c msg s) hrest hmem1
    have hstep : rangeClients env msg (c :: rest) s
        = rangeClients env msg rest (messageClient env c msg s) := by
      simp only [rangeClients, hc, if_true]
    refine ⟨Function.update errs1 c (env.writeJSON s.trace.length c msg), ?_, ?_, ?_, ?_, ?_⟩
    · rw [hstep, htr, messageClient_trace, List.flatMap_cons, Function.update_same,
        List.append_assoc]
      congr 2
      apply flatMap_congr_mem
      intro d hd
      have hdc : d ≠ c := fun e => hcrest (e ▸ hd)
      rw [Function.update_noteq hdc]
    · rw [hstep, hcl, messageClient_clients]
      by_cases hf : env.writeJSON s.trace.length c msg ≠ none
          ∧ unsafeError (env.writeJSON s.trace.length c msg) = true
      · rw [if_pos hf]
        unfold deleteClient
        rw [List.filter_filter]
        apply List.filter_congr
        intro d _
        by_cases hdc : d = c
        · subst hdc
          simp [failsUnsafe, hf, hcrest]
        · simp [Function.update_noteq hdc, hdc]
      · rw [if_neg hf]
        apply List.filter_congr
        intro d _
        by_cases hdc : d = c
        · subst hdc
          simp [failsUnsafe, hf, hcrest]
        · simp [Function.update_noteq hdc, hdc]
    · intro d hd
      by_cases hdc : d = c
      · subst hdc
        exact ⟨s.trace.length, by rw [Function.update_same]⟩
      · rw [Function.update_noteq hdc]
        rcases List.mem_cons.mp hd with h1 | h1
        · exact absurd h1 hdc
        · exact henv d h1
    · rw [hstep, hhist, messageClient_history]
    · rw [hstep, hbr, messageClient_broadcaster]

theorem messageClients_spec (env : Env) (msg : ChatMessage) (s : Relay) (hnd : s.clients.Nodup) :
    ∃ errs : Conn → Option Err,
      (messageClients env msg s).trace
          = s.trace ++ s.clients.flatMap (fun c => sendEvents c msg (errs c))
      ∧ (messageClients env msg s).clients
          = s.clients.filter (fun c => !failsUnsafe (errs c))
      ∧ (∀ c ∈ s.clients, ∃ t, errs c = env.writeJSON t c msg)
      ∧ (messageClients env msg s).history = s.history
      ∧ (messageClients env msg s).broadcaster = s.broadcaster := by
  obtain ⟨errs, h1, h2, h3, h4, h5⟩ :=
    rangeClients_spec env msg s.clients s hnd (fun _ h => h)
  refine ⟨errs, h1, ?_, h3, h4, h5⟩
  unfold messageClients
  rw [h2]
  apply List.filter_congr
  intro d hd
  simp [hd]

/-! ## Lemmas on the observations -/

theorem writeCalls_append (a b : List Event) :
    writeCalls (a ++ b) = writeCalls a ++ writeCalls b := by
  simp [writeCalls, List.filterMap_append]

theorem writesTo_append (c : Conn) (a b : List Event) :
    writesTo c (a ++ b) = writesTo c a ++ writesTo c b := by
  simp [writesTo, List.filterMap_append]

theorem rpushed_append (a b : List Event) :
    rpushed (a ++ b) = rpushed a ++ rpushed b := by
  simp [rpushed, List.filterMap_append]

theorem writeCalls_sendEvents (c : Conn) (msg : ChatMessage) (err : Option Err) :
    writeCalls (sendEvents c msg err) = [(c, msg)] := by
  unfold sendEvents writeCalls
  split <;> simp [Event.written]

theorem writesTo_sendEvents (d c : Conn) (msg : ChatMessage) (err : Option Err) :
    writesTo d (sendEvents c msg err) = if c = d then [(msg, err)] else [] := by
  unfold sendEvents writesTo
  by_cases hcd : c = d <;> split <;> simp [Event.writtenTo, hcd]

theorem rpushed_sendEvents (c : Conn) (msg : ChatMessage) (err : Option Err) :
    rpushed (sendEvents c msg err) = [] := by
  unfold sendEvents rpushed
  split <;> simp [Event.pushed]

theorem writeCalls_fanout (msg : ChatMessage) (errs : Conn → Option Err) (l : List Conn) :
    writeCalls (l.flatMap (fun c => sendEvents c msg (errs c))) = l.map (fun c => (c, msg)) := by
  induction l with
  | nil => rfl
  | cons a t ih =>
    rw [List.flatMap_cons, writeCalls_append, writeCalls_sendEvents, ih]
    rfl

theorem rpushed_fanout (msg : ChatMessage) (errs : Conn → Option Err) (l : List Conn) :
    rpushed (l.flatMap (fun c => sendEvents c msg (errs c))) = [] := by
  induction l with
  | nil => rfl
  | cons a t ih =>
    rw [List.flatMap_cons, rpushed_append, rpushed_sendEvents, ih]
    rfl

theorem writesTo_fanout_of_not_mem (d : Conn) (msg : ChatMessage) (errs : Conn → Option Err)
    (l : List Conn) (h : d ∉ l) :
    writesTo d (l.flatMap (fun c => sendEvents c msg (errs c))) = [] := by
  induction l with
  | nil => rfl
  | cons a t ih =>
    have ha : a ≠ d := fun e => h (e ▸ List.mem_cons_self a t)
    have ht : d ∉ t := fun hd => h (List.mem_cons_of_mem a hd)
    rw [List.flatMap_cons, writesTo_append, writesTo_sendEvents, if_neg ha, ih ht]
    rfl

theorem writesTo_fanout_of_mem (d : Conn) (msg : ChatMessage) (errs : Conn → Option Err)
    (l : List Conn) (hnd : l.Nodup) (h : d ∈ l) :
    writesTo d (l.flatMap (fun c => sendEvents c msg (errs c))) = [(msg, errs d)] := by
  induction l with
  | nil => cases h
  | cons a t ih =>
    have hat : a ∉ t := (List.nodup_cons.mp hnd).1
    have htn : t.Nodup := (List.nodup_cons.mp hnd).2
    rw [List.flatMap_cons, writesTo_append, writesTo_sendEvents]
    by_cases had : a = d
    · subst had
      rw [if_pos rfl, writesTo_fanout_of_not_mem a msg errs t hat]
      rfl
    · rw [if_neg had]
      rcases List.mem_cons.mp h with h1 | h1
      · exact absurd h1.symm had
      · rw [ih htn h1]
        rfl

theorem mem_fanout_write (d : Conn) (m msg : ChatMessage) (e : Option Err)
    (errs : Conn → Option Err) (l : List Conn)
    (h : Event.write d m e ∈ l.flatMap (fun c => sendEvents c msg (errs c))) :
    d ∈ l ∧ m = msg ∧ e = errs d := by
  rw [List.mem_flatMap] at h
  obtain ⟨c, hc, hmem⟩ := h
  unfold sendEvents at hmem
  split at hmem
  · simp only [List.mem_cons, Event.write.injEq, List.mem_singleton, reduceCtorEq, or_false,
      List.not_mem_nil] at hmem
    obtain ⟨h1, h2, h3⟩ := hmem
    subst h1
    exact ⟨hc, h2, h3⟩
  · simp only [List.mem_singleton, Event.write.injEq] at hmem
    obtain ⟨h1, h2, h3⟩ := hmem
    subst h1
    exact ⟨hc, h2, h3⟩

theorem newEvents_eq (s s1 : Relay) (E : List Event) (h : s1.trace = s.trace ++ E) :
    newEvents s s1 = E := by
  unfold newEvents
  rw [h, List.drop_left]

/-! ## Send path -/

/-- C5 (send-path error policy). `unsafeError err` is false exactly when `err` is a close
error with code `CloseGoingAway` or is `io.EOF`. When the write of `messageClient` succeeds
or fails with one of these two errors, the registry is unchanged and the only effect is the
write (no close). For every other write failure the effects are the write and a close of
the connection, and the registry is the previous one with the connection deleted: the
connection is gone and the membership of every other connection is unchanged. -/
theorem messageClient_error_policy (env : Env) (c : Conn) (msg : ChatMessage) (s : Relay)
    (err : Option Err) (herr : env.writeJSON s.trace.length c msg = err) :
    (∀ e : Option Err, unsafeError e = false ↔
        ((∃ text, e = some (Err.closeError CloseGoingAway text)) ∨ e = some Err.eof))
    ∧ ((err = none ∨ (∃ text, err = some (Err.closeError CloseGoingAway text))
          ∨ err = some Err.eof) →
        (messageClient env c msg s).clients = s.clients
        ∧ (messageClient env c msg s).trace = s.trace ++ [Event.write c msg err])
    ∧ (¬ (err = none ∨ (∃ text, err = some (Err.closeError CloseGoingAway text))
          ∨ err = some Err.eof) →
        (messageClient env c msg s).clients = deleteClient c s.clients
        ∧ c ∉ (messageClient env c msg s).clients
        ∧ (∀ d, d ≠ c → (d ∈ (messageClient env c msg s).clients ↔ d ∈ s.clients))
        ∧ (messageClient env c msg s).trace
            = s.trace ++ [Event.write c msg err, Event.close c]) := by
  have hiff : ∀ e : Option Err, unsafeError e = false ↔
      ((∃ text, e = some (Err.closeError CloseGoingAway text)) ∨ e = some Err.eof) := by
    intro e
    cases e with
    | none => simp [unsafeError, IsCloseError]
    | some x =>
      cases x with
      | closeError code text =>
        by_cases hcode : code = CloseGoingAway
        · subst hcode
          simp [unsafeError, IsCloseError]
        · have hne : ¬ CloseGoingAway = code := fun h => hcode h.symm
          simp [unsafeError, IsCloseError, hcode, hne]
      | eof => simp [unsafeError, IsCloseError]
      | other text => simp [unsafeError, IsCloseError]
  refine ⟨hiff, ?_, ?_⟩
  · intro hg
    have hnot : ¬ (err ≠ none ∧ unsafeError err = true) := by
      rintro ⟨h1, h2⟩
      rcases hg with h | h
      · exact h1 h
      · have := (hiff err).mpr h
        rw [this] at h2
        cases h2
    rw [messageClient_clients, messageClient_trace, herr, if_neg hnot]
    simp [sendEvents, hnot]
  · intro hg
    have hyes : err ≠ none ∧ unsafeError err = true := by
      constructor
      · exact fun h => hg (Or.inl h)
      · cases hu : unsafeError err with
        | true => rfl
        | false => exact absurd (Or.inr ((hiff err).mp hu)) hg
    rw [messageClient_clients, messageClient_trace, herr, if_pos hyes]
    refine ⟨rfl, ?_, ?_, ?_⟩
    · simp [mem_deleteClient]
    · intro d hd
      simp [mem_deleteClient, hd]
    · simp [sendEvents, hyes]

/-- Witness of C5: a broken pipe on connection 2 of three. -/
theorem messageClient_error_policy_witness :
    (∀ e : Option Err, unsafeError e = false ↔
        ((∃ text, e = some (Err.closeError CloseGoingAway text)) ∨ e = some Err.eof))
    ∧ ((some (Err.other "broken pipe") = none
          ∨ (∃ text, some (Err.other "broken pipe") = some (Err.closeError CloseGoingAway text))
          ∨ some (Err.other "broken pipe") = some Err.eof) →
        (messageClient sampleEnv 2 aliceHi sampleRelay).clients = sampleRelay.clients
        ∧ (messageClient sampleEnv 2 aliceHi sampleRelay).trace
            = sampleRelay.trace ++ [Event.write 2 aliceHi (some (Err.other "broken pipe"))])
    ∧ (¬ (some (Err.other "broken pipe") = none
          ∨ (∃ text, some (Err.other "broken pipe") = some (Err.closeError CloseGoingAway text))
          ∨ some (Err.other "broken pipe") = some Err.eof) →
        (messageClient sampleEnv 2 aliceHi sampleRelay).clients
            = deleteClient 2 sampleRelay.clients
        ∧ 2 ∉ (messageClient sampleEnv 2 aliceHi sampleRelay).clients
        ∧ (∀ d, d ≠ 2 →
            (d ∈ (messageClient sampleEnv 2 aliceHi sampleRelay).clients
              ↔ d ∈ sampleRelay.clients))
        ∧ (messageClient sampleEnv 2 aliceHi sampleRelay).trace
            = sampleRelay.trace
              ++ [Event.write 2 aliceHi (some (Err.other "broken pipe")), Event.close 2]) :=
  messageClient_error_policy sampleEnv 2 aliceHi sampleRelay (some (Err.other "broken pipe")) rfl

/-! ## Fan-out -/

/-- C4 (fan-out isolation). Let `X` be a connection whose write in `messageClients(msg)`
fails with a non-graceful error. The writes of the fan-out are one write of `msg` per
member of the registry, in the order of the iteration, so every other member is written
to exactly once, and a member whose write succeeded has received `msg`. Afterwards `X` is
not in the registry, every member whose write succeeded still is, and the registry is the
old one without exactly the members whose write failed non-gracefully. -/
theorem messageClients_fanout_isolation (env : Env) (msg : ChatMessage) (s : Relay)
    (hnd : s.clients.Nodup) (X : Conn) (err : Option Err)
    (hwrite : Event.write X msg err ∈ newEvents s (messageClients env msg s))
    (hfail : err ≠ none ∧ unsafeError err = true) :
    (messageClients env msg s).trace = s.trace ++ newEvents s (messageClients env msg s)
    ∧ writeCalls (newEvents s (messageClients env msg s)) = s.clients.map (fun c => (c, msg))
    ∧ (∀ Y ∈ s.clients, ∃ e, writesTo Y (newEvents s (messageClients env msg s)) = [(msg, e)])
    ∧ X ∈ s.clients
    ∧ X ∉ (messageClients env msg s).clients
    ∧ (∀ Y ∈ s.clients, writesTo Y (newEvents s (messageClients env msg s)) = [(msg, none)] →
        Y ∈ (messageClients env msg s).clients)
    ∧ (∀ Y, Y ∈ (messageClients env msg s).clients ↔
        (Y ∈ s.clients ∧ ∀ e, writesTo Y (newEvents s (messageClients env msg s)) = [(msg, e)] →
          ¬ (e ≠ none ∧ unsafeError e = true)))
    ∧ (messageClients env msg s).clients.Sublist s.clients
    ∧ (messageClients env msg s).history = s.history := by
  obtain ⟨errs, htr, hcl, _, hhist, _⟩ := messageClients_spec env msg s hnd
  have hE := newEvents_eq s _ _ htr
  rw [hE] at hwrite ⊢
  obtain ⟨hXmem, _, hXerr⟩ := mem_fanout_write X msg msg err errs s.clients hwrite
  have hmemiff : ∀ Y, Y ∈ (messageClients env msg s).clients ↔
      (Y ∈ s.clients ∧ ¬ (errs Y ≠ none ∧ unsafeError (errs Y) = true)) := by
    intro Y
    rw [hcl, List.mem_filter]
    simp only [failsUnsafe, Bool.not_eq_true', decide_eq_false_iff_not]
  refine ⟨htr, writeCalls_fanout msg errs s.clients, ?_, hXmem, ?_, ?_, ?_, ?_, hhist⟩
  · intro Y hY
    exact ⟨errs Y, writesTo_fanout_of_mem Y msg errs s.clients hnd hY⟩
  · intro hin
    exact ((hmemiff X).mp hin).2 (hXerr ▸ hfail)
  · intro Y hY hw
    rw [writesTo_fanout_of_mem Y msg errs s.clients hnd hY] at hw
    have he : errs Y = none := by
      have := List.head_eq_of_cons_eq hw
      exact (Prod.mk.inj this).2
    refine (hmemiff Y).mpr ⟨hY, ?_⟩
    rw [he]
    exact fun h => h.1 rfl
  · intro Y
    rw [hmemiff]
    constructor
    · rintro ⟨hY, hno⟩
      refine ⟨hY, ?_⟩
      intro e hw
      rw [writesTo_fanout_of_mem Y msg errs s.clients hnd hY] at hw
      have he : errs Y = e := (Prod.mk.inj (List.head_eq_of_cons_eq hw)).2
      exact he ▸ hno
    · rintro ⟨hY, hall⟩
      exact ⟨hY, hall (errs Y) (writesTo_fanout_of_mem Y msg errs s.clients hnd hY)⟩
  · rw [hcl]
    exact List.filter_sublist s.clients

/-- Witness of C4: of the connections 1, 2, 3 the write to 2 fails with a broken pipe. -/
theorem messageClients_fanout_isolation_witness :
    (messageClients sampleEnv aliceHi sampleRelay).trace
      = sampleRelay.trace ++ newEvents sampleRelay (messageClients sampleEnv aliceHi sampleRelay)
    ∧ writeCalls (newEvents sampleRelay (messageClients sampleEnv aliceHi sampleRelay))
        = sampleRelay.clients.map (fun c => (c, aliceHi))
    ∧ (∀ Y ∈ sampleRelay.clients, ∃ e,
        writesTo Y (newEvents sampleRelay (messageClients sampleEnv aliceHi sampleRelay))
          = [(aliceHi, e)])
    ∧ 2 ∈ sampleRelay.clients
    ∧ 2 ∉ (messageClients sampleEnv aliceHi sampleRelay).clients
    ∧ (∀ Y ∈ sampleRelay.clients,
        writesTo Y (newEvents sampleRelay (messageClients sampleEnv aliceHi sampleRelay))
          = [(aliceHi, none)] →
        Y ∈ (messageClients sampleEnv aliceHi sampleRelay).clients)
    ∧ (∀ Y, Y ∈ (messageClients sampleEnv aliceHi sampleRelay).clients ↔
        (Y ∈ sampleRelay.clients ∧ ∀ e,
          writesTo Y (newEvents sampleRelay (messageClients sampleEnv aliceHi sampleRelay))
            = [(aliceHi, e)] →
          ¬ (e ≠ none ∧ unsafeError e = true)))
    ∧ (messageClients sampleEnv aliceHi sampleRelay).clients.Sublist sampleRelay.clients
    ∧ (messageClients sampleEnv aliceHi sampleRelay).history = sampleRelay.history :=
  messageClients_fanout_isolation sampleEnv aliceHi sampleRelay (by decide) 2
    (some (Err.other "broken pipe")) (by decide) (by decide)

/-! ## Removal from the registry -/

/-- C9 (idempotent disconnect). For a connection `c` that is not in the registry, deleting
it leaves the registry as it is, both in the handler (the turn of the read loop on a read
error returns, it does not abort) and in `messageClient` (whatever the write returns);
deleting twice from any registry equals deleting once; and the `messageClients(m)` that
follows the repeated removal writes `m` to exactly the members of the registry, once
each. -/
theorem deregister_idempotent (env : Env) (c : Conn) (msg m : ChatMessage) (e : Err)
    (s : Relay) (hc : c ∉ s.clients) (hnd : s.clients.Nodup) :
    deleteClient c s.clients = s.clients
    ∧ (∃ s1, readTurn c (Except.error e) s = Result.returned s1 ∧ s1.clients = s.clients)
    ∧ (messageClient env c msg s).clients = s.clients
    ∧ (∀ R : List Conn, deleteClient c (deleteClient c R) = deleteClient c R)
    ∧ writeCalls (newEvents (readTurn c (Except.error e) s).state
          (messageClients env m (readTurn c (Except.error e) s).state))
        = s.clients.map (fun d => (d, m))
    ∧ writeCalls (newEvents (messageClient env c msg s)
          (messageClients env m (messageClient env c msg s)))
        = s.clients.map (fun d => (d, m)) := by
  have hdel := deleteClient_of_not_mem c s.clients hc
  have hmc : (messageClient env c msg s).clients = s.clients := by
    rw [messageClient_clients, hdel, ite_self]
  have hrt : (readTurn c (Except.error e) s).state.clients = s.clients := by
    simp [readTurn, Result.state, Relay.log, hdel]
  refine ⟨hdel, ⟨_, rfl, ?_⟩, hmc, fun R => deleteClient_idem c R, ?_, ?_⟩
  · simp [Relay.log, hdel]
  · obtain ⟨errs, htr, _⟩ := messageClients_spec env m (readTurn c (Except.error e) s).state
      (by rw [hrt]; exact hnd)
    rw [newEvents_eq _ _ _ htr, writeCalls_fanout, hrt]
  · obtain ⟨errs, htr, _⟩ := messageClients_spec env m (messageClient env c msg s)
      (by rw [hmc]; exact hnd)
    rw [newEvents_eq _ _ _ htr, writeCalls_fanout, hmc]

/-- Witness of C9: connection 7 is not among the connections 1, 2, 3. -/
theorem deregister_idempotent_witness :
    deleteClient 7 sampleRelay.clients = sampleRelay.clients
    ∧ (∃ s1, readTurn 7 (Except.error Err.eof) sampleRelay = Result.returned s1
        ∧ s1.clients = sampleRelay.clients)
    ∧ (messageClient sampleEnv 7 bobYo sampleRelay).clients = sampleRelay.clients
    ∧ (∀ R : List Conn, deleteClient 7 (deleteClient 7 R) = deleteClient 7 R)
    ∧ writeCalls (newEvents (readTurn 7 (Except.error Err.eof) sampleRelay).state
          (messageClients sampleEnv aliceHi (readTurn 7 (Except.error Err.eof) sampleRelay).state))
        = sampleRelay.clients.map (fun d => (d, aliceHi))
    ∧ writeCalls (newEvents (messageClient sampleEnv 7 bobYo sampleRelay)
          (messageClients sampleEnv aliceHi (messageClient sampleEnv 7 bobYo sampleRelay)))
        = sampleRelay.clients.map (fun d => (d, aliceHi)) :=
  deregister_idempotent sampleEnv 7 bobYo aliceHi Err.eof sampleRelay (by decide) (by decide)

/-! ## The connection handler -/

theorem replayLoop_spec (env : Env) (ws : Conn) :
    ∀ (h : List String) (s : Relay),
      ∃ F : List Event,
        (replayLoop env ws h s).trace = s.trace ++ F
        ∧ writeCalls F = h.map (fun r => (ws, unmarshal env.unmarshalElse r))
        ∧ (∀ ev ∈ F, (∃ m err, ev = Event.write ws m err) ∨ ev = Event.close ws)
        ∧ (replayLoop env ws h s).history = s.history
        ∧ (replayLoop env ws h s).broadcaster = s.broadcaster := by
  intro h
  induction h with
  | nil =>
    intro s
    exact ⟨[], by simp [replayLoop], rfl, by simp, rfl, rfl⟩
  | cons r rest ih =>
    intro s
    obtain ⟨F, h1, h2, h3, h4, h5⟩ :=
      ih (messageClient env ws (unmarshal env.unmarshalElse r) s)
    refine ⟨sendEvents ws (unmarshal env.unmarshalElse r)
        (env.writeJSON s.trace.length ws (unmarshal env.unmarshalElse r)) ++ F, ?_, ?_, ?_, ?_, ?_⟩
    · simp only [replayLoop]
      rw [h1, messageClient_trace, List.append_assoc]
    · rw [writeCalls_append, writeCalls_sendEvents, h2]
      rfl
    · intro ev hev
      rcases List.mem_append.mp hev with hm | hm
      · unfold sendEvents at hm
        split at hm
        · simp only [List.mem_cons, List.mem_singleton, List.not_mem_nil, or_false] at hm
          rcases hm with hm | hm
          · exact Or.inl ⟨_, _, hm⟩
          · exact Or.inr hm
        · simp only [List.mem_singleton] at hm
          exact Or.inl ⟨_, _, hm⟩
      · exact h3 ev hm
    · simp only [replayLoop]
      rw [h4, messageClient_history]
    · simp only [replayLoop]
      rw [h5, messageClient_broadcaster]

theorem readLoop_ok_frames (ws : Conn) (rest : List (Except Err ChatMessage)) :
    ∀ (oks : List ChatMessage) (s : Relay),
      readLoop ws (oks.map Except.ok ++ rest) s
        = readLoop ws rest
            { s with
                broadcaster := s.broadcaster ++ oks
                trace := s.trace
                  ++ oks.flatMap (fun m => [Event.read ws (some m), Event.send m]) } := by
  intro oks
  induction oks with
  | nil =>
    intro s
    simp
  | cons m t ih =>
    intro s
    rw [List.map_cons, List.cons_append, readLoop]
    simp only [readTurn]
    rw [ih]
    simp [Relay.log, List.flatMap_cons, List.append_assoc]

theorem readLoop_spec (ws : Conn) :
    ∀ (frames : List (Except Err ChatMessage)) (s : Relay),
      ∃ L : List Event,
        (readLoop ws frames s).state.trace = s.trace ++ L
        ∧ (∀ ev ∈ L, (∃ m, ev = Event.read ws m) ∨ (∃ m, ev = Event.send m))
        ∧ (readLoop ws frames s).state.history = s.history
        ∧ (∀ a, readLoop ws frames s ≠ Result.aborted a
            ∧ readLoop ws frames s ≠ Result.panicked a) := by
  intro frames
  induction frames with
  | nil =>
    intro s
    exact ⟨[], by simp [readLoop, Result.state], by simp, rfl, by simp [readLoop]⟩
  | cons f rest ih =>
    intro s
    cases f with
    | error e =>
      refine ⟨[Event.read ws none], ?_, ?_, ?_, ?_⟩
      · simp [readLoop, readTurn, Result.state, Relay.log]
      · intro ev hev
        simp only [List.mem_singleton] at hev
        exact Or.inl ⟨none, hev⟩
      · simp [readLoop, readTurn, Result.state, Relay.log]
      · simp [readLoop, readTurn]
    | ok m =>
      obtain ⟨L, h1, h2, h3, h4⟩ := ih (({ s.log (Event.read ws (some m)) with
        broadcaster := s.broadcaster ++ [m] } : Relay).log (Event.send m))
      refine ⟨Event.read ws (some m) :: Event.send m :: L, ?_, ?_, ?_, ?_⟩
      · simp only [readLoop, readTurn]
        rw [h1]
        simp [Relay.log]
      · intro ev hev
        simp only [List.mem_cons] at hev
        rcases hev with hev | hev | hev
        · exact Or.inl ⟨_, hev⟩
        · exact Or.inr ⟨_, hev⟩
        · exact h2 ev hev
      · simp only [readLoop, readTurn]
        rw [h3]
        simp [Relay.log]
      · simp only [readLoop, readTurn]
        exact h4

theorem writeCalls_eq_nil_of_forall (L : List Event)
    (h : ∀ ev ∈ L, ∀ c m err, ev ≠ Event.write c m err) : writeCalls L = [] := by
  induction L with
  | nil => rfl
  | cons a t ih =>
    have ht := ih (fun ev hev => h ev (List.mem_cons_of_mem a hev))
    have ha := h a (List.mem_cons_self a t)
    cases a with
    | write c m err => exact absurd rfl (ha c m err)
    | rpush r => simpa [writeCalls, Event.written] using ht
    | close c => simpa [writeCalls, Event.written] using ht
    | read c m => simpa [writeCalls, Event.written] using ht
    | send m => simpa [writeCalls, Event.written] using ht

theorem replay_spec (env : Env) (ws : Conn) (s : Relay)
    (hstore : s.history ≠ [] →
      env.existsErr s.trace.length = none ∧ env.lrangeErr s.trace.length = none) :
    ∃ (s0 : Relay) (F : List Event),
      replay env ws (register ws s) = Result.returned s0
      ∧ s0.trace = s.trace ++ F
      ∧ writeCalls F = s.history.map (fun r => (ws, unmarshal env.unmarshalElse r))
      ∧ (∀ ev ∈ F, (∃ m err, ev = Event.write ws m err) ∨ ev = Event.close ws)
      ∧ (s.history = [] → F = [])
      ∧ s0.history = s.history
      ∧ s0.broadcaster = s.broadcaster := by
  by_cases hh : s.history = []
  · refine ⟨register ws s, [], ?_, by simp [register], by simp [hh, writeCalls], by simp,
      fun _ => rfl, rfl, rfl⟩
    have hval : existsVal env (register ws s) = 0 := by
      unfold existsVal
      simp only [register, hh, List.isEmpty_nil, if_true]
      split <;> rfl
    unfold replay
    rw [hval]
    simp
  · obtain ⟨hex, hlr⟩ := hstore hh
    obtain ⟨F, h1, h2, h3, h4, h5⟩ := replayLoop_spec env ws s.history (register ws s)
    refine ⟨replayLoop env ws s.history (register ws s), F, ?_, h1, h2, h3,
      fun h => absurd h hh, h4, h5⟩
    have hempty : s.history.isEmpty = false := by
      cases hs : s.history with
      | nil => exact absurd hs hh
      | cons a t => rfl
    unfold replay existsVal sendPreviousMessages
    simp [register, hex, hlr, hempty]

/-- Replay when the store answers. When the reads of the store succeed, the setup of
`handleConnections` returns after effects `replayed`, which are one write to the new connection per stored
record, in stored order, of the message the record decodes to (and closes of that
connection after failed writes), so for a history of the records of `a, b, c` the writes
are `a, b, c`; it reads no frame and sends nothing on the channel. All
reads and channel sends of the handler come after `replayed` in the trace and no write
comes with them. When the history is empty, whatever the store answers, `replayed` is
empty and the read loop starts at once. -/
theorem replay_before_read (env : Env) (ws : Conn) (frames : List (Except Err ChatMessage))
    (s : Relay)
    (hstore : s.history ≠ [] →
      env.existsErr s.trace.length = none ∧ env.lrangeErr s.trace.length = none) :
    ∃ (s0 : Relay) (replayed loop : List Event),
      replay env ws (register ws s) = Result.returned s0
      ∧ s0.trace = s.trace ++ replayed
      ∧ s0.broadcaster = s.broadcaster
      ∧ writeCalls replayed = s.history.map (fun r => (ws, unmarshal env.unmarshalElse r))
      ∧ (∀ ms : List ChatMessage, s.history = ms.map marshal →
          writeCalls replayed = ms.map (fun m => (ws, m)))
      ∧ (∀ ev ∈ replayed, (∃ m err, ev = Event.write ws m err) ∨ ev = Event.close ws)
      ∧ (s.history = [] → replayed = [])
      ∧ (handleConnections env (Except.ok ws) frames s).state.trace = s.trace ++ replayed ++ loop
      ∧ (∀ ev ∈ loop,
          (∃ m, ev = Event.read ws m) ∨ (∃ m, ev = Event.send m) ∨ ev = Event.close ws)
      ∧ writeCalls loop = []
      ∧ (∀ a, handleConnections env (Except.ok ws) frames s ≠ Result.aborted a
          ∧ handleConnections env (Except.ok ws) frames s ≠ Result.panicked a) := by
  obtain ⟨s0, F, hrep, htr, hw, hF, hnil, _, hbr⟩ := replay_spec env ws s hstore
  obtain ⟨L, hL1, hL2, _, hL4⟩ := readLoop_spec ws frames s0
  have hms : ∀ ms : List ChatMessage, s.history = ms.map marshal →
      writeCalls F = ms.map (fun m => (ws, m)) := by
    intro ms h
    rw [hw, h, List.map_map]
    apply List.map_congr_left
    intro m _
    simp [unmarshal_marshal]
  have hnow : ∀ loop : List Event,
      (∀ ev ∈ loop,
        (∃ m, ev = Event.read ws m) ∨ (∃ m, ev = Event.send m) ∨ ev = Event.close ws) →
      writeCalls loop = [] := by
    intro loop hl
    apply writeCalls_eq_nil_of_forall
    intro ev hev c m err heq
    subst heq
    rcases hl _ hev with ⟨_, h⟩ | ⟨_, h⟩ | h <;> cases h
  cases hr : readLoop ws frames s0 with
  | returned s2 =>
    have hloop : ∀ ev ∈ L ++ [Event.close ws],
        (∃ m, ev = Event.read ws m) ∨ (∃ m, ev = Event.send m) ∨ ev = Event.close ws := by
      intro ev hev
      rcases List.mem_append.mp hev with h | h
      · rcases hL2 ev h with h1 | h1
        · exact Or.inl h1
        · exact Or.inr (Or.inl h1)
      · exact Or.inr (Or.inr (List.mem_singleton.mp h))
    refine ⟨s0, F, L ++ [Event.close ws], hrep, htr, hbr, hw, hms, hF, hnil, ?_, hloop,
      hnow _ hloop, ?_⟩
    · rw [hr] at hL1
      simp only [Result.state] at hL1
      simp only [handleConnections, hrep, hr, Result.state, Relay.log]
      rw [hL1, htr]
      simp [List.append_assoc]
    · simp [handleConnections, hrep, hr]
  | blocked s2 =>
    have hloop : ∀ ev ∈ L,
        (∃ m, ev = Event.read ws m) ∨ (∃ m, ev = Event.send m) ∨ ev = Event.close ws := by
      intro ev hev
      rcases hL2 ev hev with h1 | h1
      · exact Or.inl h1
      · exact Or.inr (Or.inl h1)
    refine ⟨s0, F, L, hrep, htr, hbr, hw, hms, hF, hnil, ?_, hloop, hnow _ hloop, ?_⟩
    · rw [hr] at hL1
      simp only [Result.state] at hL1
      simp only [handleConnections, hrep, hr, Result.state]
      rw [hL1, htr]
    · simp [handleConnections, hrep, hr]
  | aborted a => exact absurd hr (hL4 a).1
  | panicked a => exact absurd hr (hL4 a).2

/-- An instance of `replay_before_read`: connection 5 is set up on a history of two
records and then sends one frame and disconnects. -/
theorem replay_before_read_witness :
    ∃ (s0 : Relay) (replayed loop : List Event),
      replay sampleEnv 5 (register 5 storedRelay) = Result.returned s0
      ∧ s0.trace = storedRelay.trace ++ replayed
      ∧ s0.broadcaster = storedRelay.broadcaster
      ∧ writeCalls replayed
          = storedRelay.history.map (fun r => (5, unmarshal sampleEnv.unmarshalElse r))
      ∧ (∀ ms : List ChatMessage, storedRelay.history = ms.map marshal →
          writeCalls replayed = ms.map (fun m => (5, m)))
      ∧ (∀ ev ∈ replayed, (∃ m err, ev = Event.write 5 m err) ∨ ev = Event.close 5)
      ∧ (storedRelay.history = [] → replayed = [])
      ∧ (handleConnections sampleEnv (Except.ok 5)
            [Except.ok bobYo, Except.error Err.eof] storedRelay).state.trace
          = storedRelay.trace ++ replayed ++ loop
      ∧ (∀ ev ∈ loop,
          (∃ m, ev = Event.read 5 m) ∨ (∃ m, ev = Event.send m) ∨ ev = Event.close 5)
      ∧ writeCalls loop = []
      ∧ (∀ a, handleConnections sampleEnv (Except.ok 5)
            [Except.ok bobYo, Except.error Err.eof] storedRelay ≠ Result.aborted a
          ∧ handleConnections sampleEnv (Except.ok 5)
            [Except.ok bobYo, Except.error Err.eof] storedRelay ≠ Result.panicked a) :=
  replay_before_read sampleEnv 5 [Except.ok bobYo, Except.error Err.eof] storedRelay
    (fun _ => ⟨rfl, rfl⟩)

/-- C2 (replay), on an input where the code departs from it. The history holds the
records of two messages and the command `Exists` fails, so that
`rdb.Exists("chat_messages").Val()` is 0: `handleConnections` does not call
`sendPreviousMessages`, it goes straight to its read loop and sends the frame it reads on
the channel. Nothing is written to the new connection 5, where the replay would have
written the two stored messages. -/
theorem replay_skipped_when_exists_fails :
    storedRelay.history = [aliceHi, bobYo].map marshal
    ∧ existsVal existsDownEnv (register 5 storedRelay) = 0
    ∧ handleConnections existsDownEnv (Except.ok 5) [Except.ok bobYo] storedRelay
        = Result.blocked
            ⟨[1, 5], [bobYo], storedRelay.history, [Event.read 5 (some bobYo), Event.send bobYo]⟩
    ∧ writeCalls
        (handleConnections existsDownEnv (Except.ok 5) [Except.ok bobYo] storedRelay).state.trace
        = []
    ∧ writeCalls
        (handleConnections existsDownEnv (Except.ok 5) [Except.ok bobYo] storedRelay).state.trace
        ≠ [aliceHi, bobYo].map (fun m => (5, m)) := by
  refine ⟨rfl, rfl, rfl, rfl, ?_⟩
  intro h
  have h1 : writeCalls
      (handleConnections existsDownEnv (Except.ok 5) [Except.ok bobYo] storedRelay).state.trace
      = [] := rfl
  rw [h1] at h
  cases h

/-- C6 (a protocol error is local). After its setup has returned in state `s0`, a handler
that reads the frames `oks` and then gets a read error returns. It has sent exactly `oks`
on the channel, in the order read, and nothing for the failed read; it has written to no
connection; the history is unchanged; and the registry is the one after the setup with the
handler's own connection deleted, every other membership unchanged. Its effects are the
reads, the channel sends and the deferred close of its own connection. -/
theorem protocol_error_is_local (env : Env) (c : Conn) (oks : List ChatMessage) (e : Err)
    (later : List (Except Err ChatMessage)) (s s0 : Relay)
    (hsetup : replay env c (register c s) = Result.returned s0) :
    ∃ s1 : Relay,
      handleConnections env (Except.ok c) (oks.map Except.ok ++ Except.error e :: later) s
        = Result.returned s1
      ∧ s1.broadcaster = s0.broadcaster ++ oks
      ∧ s1.clients = deleteClient c s0.clients
      ∧ c ∉ s1.clients
      ∧ (∀ d, d ≠ c → (d ∈ s1.clients ↔ d ∈ s0.clients))
      ∧ s1.history = s0.history
      ∧ s1.trace = s0.trace ++ oks.flatMap (fun m => [Event.read c (some m), Event.send m])
          ++ [Event.read c none, Event.close c]
      ∧ writeCalls (newEvents s0 s1) = [] := by
  have hrun : handleConnections env (Except.ok c)
      (oks.map Except.ok ++ Except.error e :: later) s
      = Result.returned
          ⟨deleteClient c s0.clients, s0.broadcaster ++ oks, s0.history,
            s0.trace ++ oks.flatMap (fun m => [Event.read c (some m), Event.send m])
              ++ [Event.read c none, Event.close c]⟩ := by
    simp only [handleConnections, hsetup]
    rw [readLoop_ok_frames]
    simp [readLoop, readTurn, Relay.log]
  refine ⟨_, hrun, rfl, rfl, ?_, ?_, rfl, rfl, ?_⟩
  · simp [mem_deleteClient]
  · intro d hd
    simp [mem_deleteClient, hd]
  · rw [newEvents_eq s0 _ (oks.flatMap (fun m => [Event.read c (some m), Event.send m])
        ++ [Event.read c none, Event.close c]) (by simp [List.append_assoc])]
    apply writeCalls_eq_nil_of_forall
    intro ev hev c1 m err heq
    subst heq
    simp [List.mem_flatMap] at hev

/-- Witness of C6: connection 1 of the registry 1, 2, 3 sends two frames and then a frame
that does not decode. -/
theorem protocol_error_is_local_witness :
    ∃ s1 : Relay,
      handleConnections sampleEnv (Except.ok 1)
          ([aliceHi, bobYo].map Except.ok ++ Except.error (Err.other "bad frame") :: [])
          sampleRelay
        = Result.returned s1
      ∧ s1.broadcaster = sampleRelay.broadcaster ++ [aliceHi, bobYo]
      ∧ s1.clients = deleteClient 1 sampleRelay.clients
      ∧ 1 ∉ s1.clients
      ∧ (∀ d, d ≠ 1 → (d ∈ s1.clients ↔ d ∈ sampleRelay.clients))
      ∧ s1.history = sampleRelay.history
      ∧ s1.trace = sampleRelay.trace
          ++ [aliceHi, bobYo].flatMap (fun m => [Event.read 1 (some m), Event.send m])
          ++ [Event.read 1 none, Event.close 1]
      ∧ writeCalls (newEvents sampleRelay s1) = [] :=
  protocol_error_is_local sampleEnv 1 [aliceHi, bobYo] (Err.other "bad frame") []
    sampleRelay sampleRelay (by decide)

/-- C7, as the code has it: when `upgrader.Upgrade` fails, `handleConnections` calls
`log.Fatal`. The run is aborted in the state it started in: no connection is registered
or removed, the history and the channel are unchanged and nothing is written, and the
process ends. -/
theorem handshake_failure_aborts (env : Env) (e : Err)
    (frames : List (Except Err ChatMessage)) (s : Relay) :
    ∃ a : Relay,
      handleConnections env (Except.error e) frames s = Result.aborted a
      ∧ a.clients = s.clients
      ∧ a.history = s.history
      ∧ a.broadcaster = s.broadcaster
      ∧ a.trace = s.trace
      ∧ newEvents s a = [] := by
  refine ⟨s, ?_, rfl, rfl, rfl, rfl, ?_⟩
  · simp only [handleConnections]
  · unfold newEvents
    exact List.drop_length s.trace

/-- Counterexample to C7: a failed handshake on the sample relay ends the process, it does
not leave the relay running. -/
theorem handshake_failure_not_local :
    handleConnections sampleEnv (Except.error (Err.other "bad handshake")) [] sampleRelay
        = Result.aborted sampleRelay
    ∧ ¬ (∃ s1, handleConnections sampleEnv (Except.error (Err.other "bad handshake")) []
            sampleRelay = Result.returned s1
          ∨ handleConnections sampleEnv (Except.error (Err.other "bad handshake")) []
            sampleRelay = Result.blocked s1) := by
  refine ⟨rfl, ?_⟩
  rintro ⟨s1, h | h⟩ <;> cases h

/-! ## The broadcaster -/

theorem handleMessagesTurn_fail (env : Env) (msg : ChatMessage) (rest : List ChatMessage)
    (s : Relay) (e : Err) (h : env.rpush s.trace.length (marshal msg) = some e) :
    handleMessagesTurn env msg rest s = Result.aborted { s with broadcaster := rest } := by
  simp [handleMessagesTurn, storeInRedis, h, Result.state]

theorem handleMessagesTurn_ok (env : Env) (msg : ChatMessage) (rest : List ChatMessage)
    (s : Relay) (h : env.rpush s.trace.length (marshal msg) = none) :
    handleMessagesTurn env msg rest s
      = Result.returned (messageClients env msg
          ⟨s.clients, rest, s.history ++ [marshal msg], s.trace ++ [Event.rpush (marshal msg)]⟩) := by
  simp [handleMessagesTurn, storeInRedis, h, Relay.log]

theorem handleMessagesLoop_order (env : Env) (hpush : ∀ t r, env.rpush t r = none) :
    ∀ (ms : List ChatMessage) (s : Relay), s.clients.Nodup →
      ∃ (s1 : Relay) (E : List Event),
        handleMessagesLoop env ms s = Result.blocked s1
        ∧ s1.trace = s.trace ++ E
        ∧ s1.history = s.history ++ ms.map marshal
        ∧ rpushed E = ms.map marshal
        ∧ (ms ≠ [] → s1.broadcaster = [])
        ∧ s1.clients.Sublist s.clients
        ∧ (∀ c ∈ s1.clients, (writesTo c E).map Prod.fst = ms)
        ∧ (∀ c ∈ s.clients, (∀ t m, env.writeJSON t c m = none) →
            c ∈ s1.clients ∧ writesTo c E = ms.map (fun m => (m, none))) := by
  intro ms
  induction ms with
  | nil =>
    intro s _
    refine ⟨s, [], rfl, by simp, by simp, rfl, by simp, List.Sublist.refl _, ?_, ?_⟩
    · intro c _
      rfl
    · intro c hc _
      exact ⟨hc, rfl⟩
  | cons m rest ih =>
    intro s hnd
    obtain ⟨errs, htr, hcl, henv, hhist, hbr⟩ := messageClients_spec env m
      ⟨s.clients, rest, s.history ++ [marshal m], s.trace ++ [Event.rpush (marshal m)]⟩ hnd
    have hnd1 : (messageClients env m
        ⟨s.clients, rest, s.history ++ [marshal m],
          s.trace ++ [Event.rpush (marshal m)]⟩).clients.Nodup := by
      rw [hcl]
      exact hnd.filter _
    obtain ⟨s1, E1, hrun, htr1, hhist1, hpushed1, hbr1, hsub1, hw1, hok1⟩ := ih _ hnd1
    have hsub0 : (messageClients env m
        ⟨s.clients, rest, s.history ++ [marshal m],
          s.trace ++ [Event.rpush (marshal m)]⟩).clients.Sublist s.clients := by
      rw [hcl]
      exact List.filter_sublist s.clients
    have hfan : ∀ c ∈ s.clients,
        writesTo c (Event.rpush (marshal m)
          :: s.clients.flatMap (fun c => sendEvents c m (errs c))) = [(m, errs c)] := by
      intro c hc
      have := writesTo_fanout_of_mem c m errs s.clients hnd hc
      simpa [writesTo, Event.writtenTo] using this
    refine ⟨s1, Event.rpush (marshal m)
        :: s.clients.flatMap (fun c => sendEvents c m (errs c)) ++ E1, ?_, ?_, ?_, ?_, ?_, ?_,
        ?_, ?_⟩
    · simp only [handleMessagesLoop]
      rw [handleMessagesTurn_ok env m rest s (hpush _ _)]
      exact hrun
    · rw [htr1, htr]
      simp [List.append_assoc]
    · rw [hhist1, hhist]
      simp [List.append_assoc]
    · rw [rpushed_append, hpushed1]
      have : rpushed (Event.rpush (marshal m)
          :: s.clients.flatMap (fun c => sendEvents c m (errs c))) = [marshal m] := by
        have h0 := rpushed_fanout m errs s.clients
        simpa [rpushed, Event.pushed] using h0
      rw [this]
      rfl
    · intro _
      by_cases hr : rest = []
      · subst hr
        simp only [handleMessagesLoop] at hrun
        cases hrun
        exact hbr
      · exact hbr1 hr
    · exact hsub1.trans hsub0
    · intro c hc
      have hc0 : c ∈ s.clients := (hsub1.trans hsub0).subset hc
      rw [writesTo_append, hfan c hc0, List.map_append, hw1 c hc]
      rfl
    · intro c hc hall
      have herr : errs c = none := by
        obtain ⟨t, ht⟩ := henv c hc
        rw [ht]
        exact hall t m
      have hc1 : c ∈ (messageClients env m
          ⟨s.clients, rest, s.history ++ [marshal m],
            s.trace ++ [Event.rpush (marshal m)]⟩).clients := by
        rw [hcl, List.mem_filter]
        exact ⟨hc, by simp [failsUnsafe, herr]⟩
      obtain ⟨hin, hw⟩ := hok1 c hc1 hall
      refine ⟨hin, ?_⟩
      rw [writesTo_append, hfan c hc, hw, herr]
      rfl

/-- C1 (ordering). When every append to the store succeeds, `handleMessages` receives the
whole content `m1..mk` of the channel and then waits. The history afterwards is the
initial history followed by the records of `m1..mk` in that order, and the appends of the
run are exactly these records. Every connection that is still in the registry at the end
(the registry only loses members during the run) has been written `m1..mk`, each once and
in that order; every connection of the initial registry whose writes all succeed is still
in the registry and has received exactly `m1..mk` in that order. -/
theorem handleMessages_ordering (env : Env) (s : Relay) (hnd : s.clients.Nodup)
    (hpush : ∀ t r, env.rpush t r = none) :
    ∃ s1 : Relay,
      handleMessages env s = Result.blocked s1
      ∧ s1.trace = s.trace ++ newEvents s s1
      ∧ s1.history = s.history ++ s.broadcaster.map marshal
      ∧ rpushed (newEvents s s1) = s.broadcaster.map marshal
      ∧ s1.broadcaster = []
      ∧ s1.clients.Sublist s.clients
      ∧ (∀ c ∈ s1.clients, (writesTo c (newEvents s s1)).map Prod.fst = s.broadcaster)
      ∧ (∀ c ∈ s.clients, (∀ t m, env.writeJSON t c m = none) →
          c ∈ s1.clients
          ∧ writesTo c (newEvents s s1) = s.broadcaster.map (fun m => (m, none))) := by
  obtain ⟨s1, E, hrun, htr, hhist, hpushed, hbr, hsub, hw, hok⟩ :=
    handleMessagesLoop_order env hpush s.broadcaster s hnd
  have hE := newEvents_eq s s1 E htr
  refine ⟨s1, hrun, by rw [hE]; exact htr, hhist, by rw [hE]; exact hpushed, ?_, hsub,
    by rw [hE]; exact hw, by rw [hE]; exact hok⟩
  by_cases hb : s.broadcaster = []
  · rw [hb] at hrun
    simp only [handleMessagesLoop] at hrun
    cases hrun
    exact hb
  · exact hbr hb

/-- Witness of C1: two messages for the connections 1, 2, 3, where the write to 2 fails
with a broken pipe and the write to 3 with `io.EOF`. -/
theorem handleMessages_ordering_witness :
    ∃ s1 : Relay,
      handleMessages sampleEnv busyRelay = Result.blocked s1
      ∧ s1.trace = busyRelay.trace ++ newEvents busyRelay s1
      ∧ s1.history = busyRelay.history ++ busyRelay.broadcaster.map marshal
      ∧ rpushed (newEvents busyRelay s1) = busyRelay.broadcaster.map marshal
      ∧ s1.broadcaster = []
      ∧ s1.clients.Sublist busyRelay.clients
      ∧ (∀ c ∈ s1.clients,
          (writesTo c (newEvents busyRelay s1)).map Prod.fst = busyRelay.broadcaster)
      ∧ (∀ c ∈ busyRelay.clients, (∀ t m, sampleEnv.writeJSON t c m = none) →
          c ∈ s1.clients
          ∧ writesTo c (newEvents busyRelay s1)
              = busyRelay.broadcaster.map (fun m => (m, none))) :=
  handleMessages_ordering sampleEnv busyRelay (by decide) (fun _ _ => rfl)

theorem rangeClients_events (env : Env) (msg : ChatMessage) :
    ∀ (l : List Conn) (s : Relay),
      ∃ F : List Event,
        (rangeClients env msg l s).trace = s.trace ++ F
        ∧ (∀ ev ∈ F, (∃ c err, ev = Event.write c msg err) ∨ (∃ c, ev = Event.close c))
        ∧ (rangeClients env msg l s).history = s.history := by
  intro l
  induction l with
  | nil =>
    intro s
    exact ⟨[], by simp [rangeClients], by simp, rfl⟩
  | cons c rest ih =>
    intro s
    by_cases hc : c ∈ s.clients
    · obtain ⟨F, h1, h2, h3⟩ := ih (messageClient env c msg s)
      refine ⟨sendEvents c msg (env.writeJSON s.trace.length c msg) ++ F, ?_, ?_, ?_⟩
      · simp only [rangeClients, hc, if_true]
        rw [h1, messageClient_trace, List.append_assoc]
      · intro ev hev
        rcases List.mem_append.mp hev with hm | hm
        · unfold sendEvents at hm
          split at hm
          · simp only [List.mem_cons, List.mem_singleton, List.not_mem_nil, or_false] at hm
            rcases hm with hm | hm
            · exact Or.inl ⟨_, _, hm⟩
            · exact Or.inr ⟨_, hm⟩
          · simp only [List.mem_singleton] at hm
            exact Or.inl ⟨_, _, hm⟩
        · exact h2 ev hm
      · simp only [rangeClients, hc, if_true]
        rw [h3, messageClient_history]
    · obtain ⟨F, h1, h2, h3⟩ := ih s
      refine ⟨F, ?_, h2, ?_⟩
      · simp only [rangeClients, hc, if_false]
        exact h1
      · simp only [rangeClients, hc, if_false]
        exact h3

theorem rpushed_eq_nil_of_forall (L : List Event)
    (h : ∀ ev ∈ L, ∀ r, ev ≠ Event.rpush r) : rpushed L = [] := by
  induction L with
  | nil => rfl
  | cons a t ih =>
    have ht := ih (fun ev hev => h ev (List.mem_cons_of_mem a hev))
    have ha := h a (List.mem_cons_self a t)
    cases a with
    | rpush r => exact absurd rfl (ha r)
    | write c m err => simpa [rpushed, Event.pushed] using ht
    | close c => simpa [rpushed, Event.pushed] using ht
    | read c m => simpa [rpushed, Event.pushed] using ht
    | send m => simpa [rpushed, Event.pushed] using ht

theorem handleMessagesLoop_persist (env : Env) :
    ∀ (ms : List ChatMessage) (s : Relay),
      ∃ E : List Event,
        (handleMessagesLoop env ms s).state.trace = s.trace ++ E
        ∧ (handleMessagesLoop env ms s).state.history = s.history ++ rpushed E
        ∧ (∀ pre c m err post, E = pre ++ Event.write c m err :: post →
            ∃ i, ms[i]? = some m ∧ rpushed pre = (ms.take (i + 1)).map marshal) := by
  intro ms
  induction ms with
  | nil =>
    intro s
    refine ⟨[], by simp [handleMessagesLoop, Result.state],
      by simp [handleMessagesLoop, Result.state, rpushed], ?_⟩
    intro pre c m err post h
    exact absurd h (by simp)
  | cons m0 rest ih =>
    intro s
    cases hp : env.rpush s.trace.length (marshal m0) with
    | some e =>
      refine ⟨[], ?_, ?_, ?_⟩
      · simp [handleMessagesLoop, handleMessagesTurn_fail env m0 rest s e hp, Result.state]
      · simp [handleMessagesLoop, handleMessagesTurn_fail env m0 rest s e hp, Result.state,
          rpushed]
      · intro pre c m err post h
        exact absurd h (by simp)
    | none =>
      obtain ⟨F, hF1, hF2, hF3⟩ := rangeClients_events env m0 s.clients
        ⟨s.clients, rest, s.history ++ [marshal m0], s.trace ++ [Event.rpush (marshal m0)]⟩
      obtain ⟨E1, hE1, hE2, hE3⟩ := ih (messageClients env m0
        ⟨s.clients, rest, s.history ++ [marshal m0], s.trace ++ [Event.rpush (marshal m0)]⟩)
      have hrun : handleMessagesLoop env (m0 :: rest) s
          = handleMessagesLoop env rest (messageClients env m0
              ⟨s.clients, rest, s.history ++ [marshal m0],
                s.trace ++ [Event.rpush (marshal m0)]⟩) := by
        simp only [handleMessagesLoop]
        rw [handleMessagesTurn_ok env m0 rest s hp]
      have hFpush : ∀ L : List Event, (∀ ev ∈ L, ev ∈ F) → rpushed L = [] := by
        intro L hL
        apply rpushed_eq_nil_of_forall
        intro ev hev r heq
        subst heq
        rcases hF2 _ (hL _ hev) with ⟨_, _, h⟩ | ⟨_, h⟩ <;> cases h
      refine ⟨Event.rpush (marshal m0) :: F ++ E1, ?_, ?_, ?_⟩
      · rw [hrun, hE1]
        unfold messageClients
        rw [hF1]
        simp [List.append_assoc]
      · rw [hrun, hE2]
        unfold messageClients
        rw [hF3, rpushed_append]
        have : rpushed (Event.rpush (marshal m0) :: F) = [marshal m0] := by
          have h0 := hFpush F (fun _ h => h)
          simpa [rpushed, Event.pushed] using h0
        rw [this]
        simp [List.append_assoc]
      · intro pre c m err post hsplit
        rcases List.append_eq_append_iff.mp hsplit with ⟨a, ha1, ha2⟩ | ⟨b, hb1, hb2⟩
        · -- the write lies in the part of the later messages
          obtain ⟨i, hi1, hi2⟩ := hE3 a c m err post ha2
          refine ⟨i + 1, by simpa using hi1, ?_⟩
          rw [ha1, rpushed_append, hi2]
          have : rpushed (Event.rpush (marshal m0) :: F) = [marshal m0] := by
            have h0 := hFpush F (fun _ h => h)
            simpa [rpushed, Event.pushed] using h0
          rw [this]
          simp
        · -- the write lies in the fan-out of `m0`
          cases b with
          | nil =>
            simp only [List.append_nil] at hb1
            simp only [List.nil_append] at hb2
            obtain ⟨i, hi1, hi2⟩ := hE3 [] c m err post hb2.symm
            refine ⟨i + 1, by simpa using hi1, ?_⟩
            rw [← hb1]
            have : rpushed (Event.rpush (marshal m0) :: F) = [marshal m0] := by
              have h0 := hFpush F (fun _ h => h)
              simpa [rpushed, Event.pushed] using h0
            rw [this]
            have h3 : rpushed ([] : List Event) = [] := rfl
            rw [h3] at hi2
            have hlen := congrArg List.length hi2
            have hlt : i < rest.length := by
              rcases Nat.lt_or_ge i rest.length with h | h
              · exact h
              · rw [List.getElem?_eq_none h] at hi1
                cases hi1
            simp only [List.length_nil, List.length_map, List.length_take] at hlen
            omega
          | cons x b1 =>
            simp only [List.cons_append] at hb2
            obtain ⟨hx, _⟩ := List.cons.inj hb2
            subst hx
            cases pre with
            | nil =>
              simp only [List.nil_append] at hb1
              obtain ⟨hx, _⟩ := List.cons.inj hb1
              cases hx
            | cons y pre1 =>
              simp only [List.cons_append] at hb1
              obtain ⟨hy, hrest⟩ := List.cons.inj hb1
              subst hy
              have hwF : Event.write c m err ∈ F := by
                rw [hrest]
                simp
              have hm : m = m0 := by
                rcases hF2 _ hwF with ⟨_, _, h⟩ | ⟨_, h⟩
                · cases h
                  rfl
                · cases h
              have hpre : rpushed pre1 = [] := by
                apply hFpush
                intro ev hev
                rw [hrest]
                exact List.mem_append_left _ hev
              refine ⟨0, by simp [hm], ?_⟩
              have : rpushed (Event.rpush (marshal m0) :: pre1) = [marshal m0] := by
                simpa [rpushed, Event.pushed] using hpre
              rw [this]
              simp

/-- C3 (persistence before delivery). In every run of `handleMessages`, from any state and
whatever the store and the connections answer: the history at the end is the initial one
followed by the records appended during the run; and whenever a message `m` is written to
a connection, the appends before that write are the records of the first `i + 1` messages
received, where `m` is the message number `i`, so that the history at that moment, and
the history at the end, hold the record of `m` at position `initial length + i`. If the
append fails for a message, the turn for it aborts with no effect at all: nothing is
written to any connection. -/
theorem persistence_before_delivery (env : Env) (s : Relay) :
    (handleMessages env s).state.trace
        = s.trace ++ newEvents s (handleMessages env s).state
    ∧ (handleMessages env s).state.history
        = s.history ++ rpushed (newEvents s (handleMessages env s).state)
    ∧ (∀ pre c m err post,
        newEvents s (handleMessages env s).state = pre ++ Event.write c m err :: post →
        ∃ i, s.broadcaster[i]? = some m
          ∧ rpushed pre = (s.broadcaster.take (i + 1)).map marshal
          ∧ (s.history ++ rpushed pre)[s.history.length + i]? = some (marshal m)
          ∧ (handleMessages env s).state.history[s.history.length + i]? = some (marshal m))
    ∧ (∀ (msg : ChatMessage) (rest : List ChatMessage) (s0 : Relay) (e : Err),
        env.rpush s0.trace.length (marshal msg) = some e →
        handleMessagesTurn env msg rest s0 = Result.aborted { s0 with broadcaster := rest }
        ∧ handleMessagesLoop env (msg :: rest) s0
            = Result.aborted { s0 with broadcaster := rest }) := by
  obtain ⟨E, hE1, hE2, hE3⟩ := handleMessagesLoop_persist env s.broadcaster s
  have hE : newEvents s (handleMessages env s).state = E := newEvents_eq s _ E hE1
  rw [hE]
  refine ⟨hE1, hE2, ?_, ?_⟩
  · intro pre c m err post hsplit
    obtain ⟨i, hi1, hi2⟩ := hE3 pre c m err post hsplit
    have hlt : i < s.broadcaster.length := by
      rcases Nat.lt_or_ge i s.broadcaster.length with h | h
      · exact h
      · rw [List.getElem?_eq_none h] at hi1
        cases hi1
    have hidx : (rpushed pre)[i]? = some (marshal m) := by
      rw [hi2, List.getElem?_map, List.getElem?_take_of_lt (Nat.lt_succ_self i), hi1]
      rfl
    have hlen : i < (rpushed pre).length := by
      rw [hi2, List.length_map, List.length_take]
      omega
    have hat : (s.history ++ rpushed pre)[s.history.length + i]? = some (marshal m) := by
      rw [List.getElem?_append_right (Nat.le_add_right _ _), Nat.add_sub_cancel_left]
      exact hidx
    refine ⟨i, hi1, hi2, hat, ?_⟩
    have hfin : (handleMessages env s).state.history
        = (s.history ++ rpushed pre) ++ rpushed (Event.write c m err :: post) := by
      show (handleMessagesLoop env s.broadcaster s).state.history = _
      rw [hE2, hsplit, rpushed_append, List.append_assoc]
    rw [hfin, List.getElem?_append_left (by rw [List.length_append]; omega)]
    exact hat
  · intro msg rest s0 e hfail
    have hturn := handleMessagesTurn_fail env msg rest s0 e hfail
    refine ⟨hturn, ?_⟩
    simp only [handleMessagesLoop]
    rw [hturn]

/-- Witness of C3: in the run of the sample relay the write of the second message to
connection 1 comes after the appends of both records; and when the store refuses the
append of the first waiting message, the run aborts with nothing written. -/
theorem persistence_before_delivery_witness :
    (∃ i, busyRelay.broadcaster[i]? = some bobYo
      ∧ rpushed [Event.rpush (marshal aliceHi), Event.write 1 aliceHi none,
          Event.write 2 aliceHi (some (Err.other "broken pipe")), Event.close 2,
          Event.write 3 aliceHi (some Err.eof), Event.rpush (marshal bobYo)]
        = (busyRelay.broadcaster.take (i + 1)).map marshal
      ∧ (busyRelay.history ++ rpushed [Event.rpush (marshal aliceHi),
          Event.write 1 aliceHi none,
          Event.write 2 aliceHi (some (Err.other "broken pipe")), Event.close 2,
          Event.write 3 aliceHi (some Err.eof), Event.rpush (marshal bobYo)])[
            busyRelay.history.length + i]? = some (marshal bobYo)
      ∧ (handleMessages sampleEnv busyRelay).state.history[busyRelay.history.length + i]?
          = some (marshal bobYo))
    ∧ handleMessagesTurn storeDownEnv aliceHi [bobYo] busyRelay
        = Result.aborted { busyRelay with broadcaster := [bobYo] }
    ∧ handleMessagesLoop storeDownEnv (aliceHi :: [bobYo]) busyRelay
        = Result.aborted { busyRelay with broadcaster := [bobYo] } :=
  ⟨(persistence_before_delivery sampleEnv busyRelay).2.2.1
      [Event.rpush (marshal aliceHi), Event.write 1 aliceHi none,
        Event.write 2 aliceHi (some (Err.other "broken pipe")), Event.close 2,
        Event.write 3 aliceHi (some Err.eof), Event.rpush (marshal bobYo)]
      1 bobYo none [Event.write 3 bobYo (some Err.eof)] (by decide),
    (persistence_before_delivery storeDownEnv busyRelay).2.2.2 aliceHi [bobYo] busyRelay
      (Err.other "connection refused") rfl⟩

/-! ## Store and replay -/

/-- C10 (store and replay round trip). For every `ChatMessage`, whatever its two strings
hold, the record `storeInRedis` appends decodes in `sendPreviousMessages` to the same
message. Hence, from an empty history, when the broadcaster receives `m` alone and the
append succeeds, the history afterwards holds exactly the one record of `m`, and the setup
of a connection that comes next (the reads of the store succeeding) writes to it `m` and
nothing else. -/
theorem store_replay_round_trip (env : Env) (m : ChatMessage) (s : Relay) (ws : Conn)
    (hempty : s.history = []) (hq : s.broadcaster = [m])
    (hpush : env.rpush s.trace.length (marshal m) = none)
    (hreads : ∀ t, env.existsErr t = none ∧ env.lrangeErr t = none) :
    (∀ msg : ChatMessage, unmarshal env.unmarshalElse (marshal msg) = msg)
    ∧ ∃ (s1 s2 : Relay) (replayed : List Event),
        handleMessages env s = Result.blocked s1
        ∧ s1.history = [marshal m]
        ∧ replay env ws (register ws s1) = Result.returned s2
        ∧ s2.trace = s1.trace ++ replayed
        ∧ writeCalls replayed = [(ws, m)]
        ∧ (∀ ev ∈ replayed, (∃ msg err, ev = Event.write ws msg err) ∨ ev = Event.close ws) := by
  refine ⟨fun msg => unmarshal_marshal env.unmarshalElse msg, ?_⟩
  obtain ⟨F, _, _, hF3⟩ := rangeClients_events env m s.clients
    ⟨s.clients, [], s.history ++ [marshal m], s.trace ++ [Event.rpush (marshal m)]⟩
  have hrun : handleMessages env s = Result.blocked (messageClients env m
      ⟨s.clients, [], s.history ++ [marshal m], s.trace ++ [Event.rpush (marshal m)]⟩) := by
    unfold handleMessages
    rw [hq]
    simp only [handleMessagesLoop]
    rw [handleMessagesTurn_ok env m [] s hpush]
  have hhist : (messageClients env m
      ⟨s.clients, [], s.history ++ [marshal m],
        s.trace ++ [Event.rpush (marshal m)]⟩).history = [marshal m] := by
    unfold messageClients
    rw [hF3, hempty]
    rfl
  obtain ⟨s2, R, hrep, htr, hw, hR, _, _, _⟩ := replay_spec env ws (messageClients env m
      ⟨s.clients, [], s.history ++ [marshal m], s.trace ++ [Event.rpush (marshal m)]⟩)
      (fun _ => hreads _)
  refine ⟨_, s2, R, hrun, hhist, hrep, htr, ?_, hR⟩
  rw [hw, hhist]
  simp [unmarshal_marshal]

/-- Witness of C10: the example of the specification, three connections, an empty history
and the message of alice; connection 4 comes afterwards. -/
theorem store_replay_round_trip_witness :
    (∀ msg : ChatMessage, unmarshal sampleEnv.unmarshalElse (marshal msg) = msg)
    ∧ ∃ (s1 s2 : Relay) (replayed : List Event),
        handleMessages sampleEnv ⟨[1, 2, 3], [aliceHi], [], []⟩ = Result.blocked s1
        ∧ s1.history = [marshal aliceHi]
        ∧ replay sampleEnv 4 (register 4 s1) = Result.returned s2
        ∧ s2.trace = s1.trace ++ replayed
        ∧ writeCalls replayed = [(4, aliceHi)]
        ∧ (∀ ev ∈ replayed, (∃ msg err, ev = Event.write 4 msg err) ∨ ev = Event.close 4) :=
  store_replay_round_trip sampleEnv aliceHi ⟨[1, 2, 3], [aliceHi], [], []⟩ 4 rfl rfl rfl
    (fun _ => ⟨rfl, rfl⟩)

/-! ## The registry and the handlers -/

theorem failedWrite_append (c : Conn) (a b : List Event) :
    failedWrite c (a ++ b) ↔ failedWrite c a ∨ failedWrite c b := by
  unfold failedWrite
  constructor
  · rintro ⟨m, err, hmem, he⟩
    rcases List.mem_append.mp hmem with h | h
    · exact Or.inl ⟨m, err, h, he⟩
    · exact Or.inr ⟨m, err, h, he⟩
  · rintro (⟨m, err, hmem, he⟩ | ⟨m, err, hmem, he⟩)
    · exact ⟨m, err, List.mem_append_left _ hmem, he⟩
    · exact ⟨m, err, List.mem_append_right _ hmem, he⟩

theorem Shrinks.intro {s s1 : Relay} (E : List Event) (htr : s1.trace = s.trace ++ E)
    (hsub : s1.clients.Sublist s.clients)
    (hrem : ∀ c ∈ s.clients, c ∉ s1.clients → failedWrite c E)
    (hkeep : ∀ c ∈ s1.clients, ¬ failedWrite c E) : Shrinks s s1 := by
  have hE := newEvents_eq s s1 E htr
  unfold Shrinks
  rw [hE]
  exact ⟨htr, hsub, hrem, hkeep⟩

theorem Shrinks.refl (s : Relay) : Shrinks s s :=
  Shrinks.intro [] (by simp) (List.Sublist.refl _) (fun c hc hn => absurd hc hn)
    (fun c _ h => by
      obtain ⟨_, _, hmem, _⟩ := h
      cases hmem)

theorem Shrinks.trans {s s1 s2 : Relay} (h1 : Shrinks s s1) (h2 : Shrinks s1 s2) :
    Shrinks s s2 := by
  obtain ⟨ht1, hs1, hr1, hk1⟩ := h1
  obtain ⟨ht2, hs2, hr2, hk2⟩ := h2
  refine Shrinks.intro (newEvents s s1 ++ newEvents s1 s2)
    (by rw [ht2, ht1, List.append_assoc]) (hs2.trans hs1) ?_ ?_
  · intro c hc hn
    rw [failedWrite_append]
    by_cases hc1 : c ∈ s1.clients
    · exact Or.inr (hr2 c hc1 hn)
    · exact Or.inl (hr1 c hc hc1)
  · intro c hc hf
    rw [failedWrite_append] at hf
    rcases hf with hf | hf
    · exact hk1 c (hs2.subset hc) hf
    · exact hk2 c hc hf

theorem messageClient_shrinks (env : Env) (c : Conn) (msg : ChatMessage) (s : Relay) :
    Shrinks s (messageClient env c msg s) := by
  refine Shrinks.intro (sendEvents c msg (env.writeJSON s.trace.length c msg))
    (messageClient_trace env c msg s) ?_ ?_ ?_
  · rw [messageClient_clients]
    split
    · exact List.filter_sublist s.clients
    · exact List.Sublist.refl _
  · intro d hd hn
    rw [messageClient_clients] at hn
    by_cases hf : env.writeJSON s.trace.length c msg ≠ none
        ∧ unsafeError (env.writeJSON s.trace.length c msg) = true
    · rw [if_pos hf, mem_deleteClient] at hn
      have hdc : d = c := by
        by_contra hne
        exact hn ⟨hd, hne⟩
      subst hdc
      refine ⟨msg, env.writeJSON s.trace.length d msg, ?_, hf⟩
      simp [sendEvents, hf]
    · rw [if_neg hf] at hn
      exact absurd hd hn
  · intro d hd hfw
    obtain ⟨m, err, hmem, he⟩ := hfw
    rw [messageClient_clients] at hd
    have hw : d = c ∧ err = env.writeJSON s.trace.length c msg := by
      unfold sendEvents at hmem
      split at hmem
      · simp only [List.mem_cons, Event.write.injEq, List.mem_singleton, reduceCtorEq,
          or_false, List.not_mem_nil] at hmem
        exact ⟨hmem.1, hmem.2.2⟩
      · simp only [List.mem_singleton, Event.write.injEq] at hmem
        exact ⟨hmem.1, hmem.2.2⟩
    obtain ⟨hdc, herr⟩ := hw
    subst hdc
    rw [herr] at he
    rw [if_pos he, mem_deleteClient] at hd
    exact hd.2 rfl

theorem rangeClients_shrinks (env : Env) (msg : ChatMessage) :
    ∀ (l : List Conn) (s : Relay), Shrinks s (rangeClients env msg l s) := by
  intro l
  induction l with
  | nil =>
    intro s
    exact Shrinks.refl s
  | cons c rest ih =>
    intro s
    by_cases hc : c ∈ s.clients
    · simp only [rangeClients, hc, if_true]
      exact (messageClient_shrinks env c msg s).trans (ih _)
    · simp only [rangeClients, hc, if_false]
      exact ih s

theorem rangeClients_targets (env : Env) (msg : ChatMessage) :
    ∀ (l : List Conn) (s : Relay) (c : Conn) (m : ChatMessage) (err : Option Err),
      Event.write c m err ∈ newEvents s (rangeClients env msg l s) → c ∈ s.clients := by
  intro l
  induction l with
  | nil =>
    intro s c m err h
    simp [rangeClients, newEvents] at h
  | cons c0 rest ih =>
    intro s c m err h
    by_cases hc : c0 ∈ s.clients
    · simp only [rangeClients, hc, if_true] at h
      obtain ⟨ht1, hs1, _, _⟩ := messageClient_shrinks env c0 msg s
      obtain ⟨ht2, _, _, _⟩ := rangeClients_shrinks env msg rest (messageClient env c0 msg s)
      have hE : newEvents s (rangeClients env msg rest (messageClient env c0 msg s))
          = newEvents s (messageClient env c0 msg s)
            ++ newEvents (messageClient env c0 msg s)
                (rangeClients env msg rest (messageClient env c0 msg s)) := by
        apply newEvents_eq
        rw [ht2, ht1, List.append_assoc]
      rw [hE] at h
      rcases List.mem_append.mp h with h1 | h1
      · rw [newEvents_eq s _ _ (messageClient_trace env c0 msg s)] at h1
        have : c = c0 := by
          unfold sendEvents at h1
          split at h1
          · simp only [List.mem_cons, Event.write.injEq, List.mem_singleton, reduceCtorEq,
              or_false, List.not_mem_nil] at h1
            exact h1.1
          · simp only [List.mem_singleton, Event.write.injEq] at h1
            exact h1.1
        rw [this]
        exact hc
      · exact hs1.subset (ih _ c m err h1)
    · simp only [rangeClients, hc, if_false] at h
      exact ih s c m err h

theorem replayLoop_shrinks (env : Env) (ws : Conn) :
    ∀ (h : List String) (s : Relay), Shrinks s (replayLoop env ws h s) := by
  intro h
  induction h with
  | nil =>
    intro s
    exact Shrinks.refl s
  | cons r rest ih =>
    intro s
    simp only [replayLoop]
    exact (messageClient_shrinks env ws _ s).trans (ih _)

theorem replay_returned (env : Env) (ws : Conn) (s s1 : Relay)
    (h : replay env ws s = Result.returned s1) :
    Shrinks s s1
    ∧ ∀ c m err, Event.write c m err ∈ newEvents s s1 → c = ws := by
  unfold replay at h
  split at h
  · unfold sendPreviousMessages at h
    split at h
    · cases h
    · cases h
      refine ⟨replayLoop_shrinks env ws s.history s, ?_⟩
      intro c m err hmem
      obtain ⟨F, hF1, _, hF3, _, _⟩ := replayLoop_spec env ws s.history s
      rw [newEvents_eq s _ F hF1] at hmem
      rcases hF3 _ hmem with ⟨_, _, heq⟩ | heq
      · cases heq
        rfl
      · cases heq
  · cases h
    refine ⟨Shrinks.refl s, ?_⟩
    intro c m err hmem
    simp [newEvents] at hmem

theorem replay_panicked (env : Env) (ws : Conn) (s s1 : Relay)
    (h : replay env ws s = Result.panicked s1) : s1 = s := by
  unfold replay at h
  split at h
  · unfold sendPreviousMessages at h
    split at h
    · cases h
      rfl
    · cases h
  · cases h

theorem handleMessagesTurn_returned (env : Env) (msg : ChatMessage)
    (rest : List ChatMessage) (s s1 : Relay)
    (h : handleMessagesTurn env msg rest s = Result.returned s1) :
    Shrinks s s1
    ∧ ∀ c m err, Event.write c m err ∈ newEvents s s1 → c ∈ s.clients := by
  cases hp : env.rpush s.trace.length (marshal msg) with
  | some e =>
    rw [handleMessagesTurn_fail env msg rest s e hp] at h
    cases h
  | none =>
    rw [handleMessagesTurn_ok env msg rest s hp] at h
    cases h
    have h0 : Shrinks s
        ⟨s.clients, rest, s.history ++ [marshal msg], s.trace ++ [Event.rpush (marshal msg)]⟩ :=
      Shrinks.intro [Event.rpush (marshal msg)] rfl (List.Sublist.refl _)
        (fun c hc hn => absurd hc hn)
        (fun c _ hf => by
          obtain ⟨_, _, hmem, _⟩ := hf
          simp at hmem)
    have h1 := rangeClients_shrinks env msg s.clients
      ⟨s.clients, rest, s.history ++ [marshal msg], s.trace ++ [Event.rpush (marshal msg)]⟩
    refine ⟨h0.trans h1, ?_⟩
    intro c m err hmem
    have hE : newEvents s (messageClients env msg
        ⟨s.clients, rest, s.history ++ [marshal msg], s.trace ++ [Event.rpush (marshal msg)]⟩)
        = [Event.rpush (marshal msg)] ++ newEvents
            ⟨s.clients, rest, s.history ++ [marshal msg],
              s.trace ++ [Event.rpush (marshal msg)]⟩
            (messageClients env msg
              ⟨s.clients, rest, s.history ++ [marshal msg],
                s.trace ++ [Event.rpush (marshal msg)]⟩) := by
      apply newEvents_eq
      have := h1.1
      unfold messageClients
      rw [this]
      simp [List.append_assoc]
    rw [hE] at hmem
    rcases List.mem_append.mp hmem with h2 | h2
    · simp at h2
    · exact rangeClients_targets env msg s.clients
        ⟨s.clients, rest, s.history ++ [marshal msg], s.trace ++ [Event.rpush (marshal msg)]⟩
        c m err h2


theorem failedWrite_of_no_write (c : Conn) (E : List Event)
    (h : ∀ ev ∈ E, ∀ d m err, ev ≠ Event.write d m err) : ¬ failedWrite c E := by
  rintro ⟨m, err, hmem, _⟩
  exact h _ hmem c m err rfl

theorem registryInv_shrink (sys : System) (s1 : Relay) (pc1 : Conn → Pc)
    (hinv : RegistryInv sys) (hs : Shrinks sys.relay s1)
    (hmem : ∀ c, ((sys.pc c).active = true ∨ sys.pc c = Pc.panicked) →
      ((pc1 c).active = true ∨ pc1 c = Pc.panicked))
    (hact : ∀ c, (pc1 c).active = true → (sys.pc c).active = true)
    (hconn : ∀ c, pc1 c = Pc.connecting → sys.pc c = Pc.connecting)
    (htargets : ∀ c m err, Event.write c m err ∈ newEvents sys.relay s1 →
      pc1 c ≠ Pc.connecting) :
    RegistryInv ⟨s1, pc1⟩ := by
  obtain ⟨ha, hb, hc, he, hnd⟩ := hinv
  obtain ⟨htr, hsub, hrem, hkeep⟩ := hs
  refine ⟨?_, ?_, ?_, ?_, hnd.sublist hsub⟩
  · intro c hc1
    exact hmem c (ha c (hsub.subset hc1))
  · intro c hc1
    show c ∈ s1.clients ∨ failedWrite c s1.trace
    rw [htr, failedWrite_append]
    rcases hb c (hact c hc1) with h | h
    · by_cases hin : c ∈ s1.clients
      · exact Or.inl hin
      · exact Or.inr (Or.inr (hrem c h hin))
    · exact Or.inr (Or.inl h)
  · intro c hc1
    show ¬ failedWrite c s1.trace
    rw [htr, failedWrite_append]
    rintro (h | h)
    · exact hc c (hsub.subset hc1) h
    · exact hkeep c hc1 h
  · intro c m err hw
    have hw1 : Event.write c m err ∈ s1.trace := hw
    rw [htr] at hw1
    rcases List.mem_append.mp hw1 with h | h
    · exact fun hcon => he c m err h (hconn c hcon)
    · exact htargets c m err h

theorem step_preserves (env : Env) (sys sys1 : System) (a : Action)
    (hinv : RegistryInv sys) (hstep : step env sys a = some sys1) : RegistryInv sys1 := by
  cases a with
  | register ws =>
    obtain ⟨ha, hb, hc, he, hnd⟩ := hinv
    simp only [step] at hstep
    split at hstep
    · rename_i hpc
      cases hstep
      have hws : ∀ c, c ∈ sys.relay.clients → c ≠ ws := by
        intro c hcm heq
        subst heq
        rcases ha c hcm with h | h
        · rw [hpc] at h
          cases h
        · rw [hpc] at h
          cases h
      refine ⟨?_, ?_, ?_, ?_, nodup_addClient ws _ hnd⟩
      · intro c hcm
        simp only [register, mem_addClient] at hcm
        by_cases hcw : c = ws
        · simp [setPc, hcw, Pc.active]
        · rcases hcm with hcm | hcm
          · simpa [setPc, hcw] using ha c hcm
          · exact absurd hcm hcw
      · intro c hact
        by_cases hcw : c = ws
        · left
          simp only [register, mem_addClient]
          exact Or.inr hcw
        · have hact0 : (sys.pc c).active = true := by simpa [setPc, hcw] using hact
          rcases hb c hact0 with h | h
          · left
            simp only [register, mem_addClient]
            exact Or.inl h
          · exact Or.inr h
      · intro c hcm hf
        simp only [register, mem_addClient] at hcm
        rcases hcm with hcm | hcm
        · exact hc c hcm hf
        · subst hcm
          obtain ⟨m, err, hw, _⟩ := hf
          exact he c m err hw hpc
      · intro c m err hw hcon
        have hw0 : Event.write c m err ∈ sys.relay.trace := hw
        have hne := he c m err hw0
        by_cases hcw : c = ws
        · simp [setPc, hcw] at hcon
        · exact hne (by simpa [setPc, hcw] using hcon)
    · cases hstep
  | replay ws =>
    simp only [step] at hstep
    split at hstep
    · rename_i hpc
      split at hstep
      · rename_i s1 hrep
        cases hstep
        obtain ⟨hs, htg⟩ := replay_returned env ws sys.relay s1 hrep
        apply registryInv_shrink sys s1 _ hinv hs
        · intro c h
          by_cases hcw : c = ws
          · simp [setPc, hcw, Pc.active]
          · simpa [setPc, hcw] using h
        · intro c h
          by_cases hcw : c = ws
          · rw [hcw, hpc]
            rfl
          · simpa [setPc, hcw] using h
        · intro c h
          by_cases hcw : c = ws
          · simp [setPc, hcw] at h
          · simpa [setPc, hcw] using h
        · intro c m err hw
          rw [htg c m err hw]
          simp [setPc]
      · rename_i s1 hrep
        cases hstep
        have hs1 := replay_panicked env ws sys.relay s1 hrep
        subst hs1
        have hs : Shrinks sys.relay (sys.relay.log (Event.close ws)) :=
          Shrinks.intro [Event.close ws] rfl (List.Sublist.refl _)
            (fun c hc hn => absurd hc hn)
            (fun c _ hf => by
              obtain ⟨_, _, hmem, _⟩ := hf
              simp at hmem)
        apply registryInv_shrink sys _ _ hinv hs
        · intro c h
          by_cases hcw : c = ws
          · simp [setPc, hcw]
          · simpa [setPc, hcw] using h
        · intro c h
          by_cases hcw : c = ws
          · simp [setPc, hcw, Pc.active] at h
          · simpa [setPc, hcw] using h
        · intro c h
          by_cases hcw : c = ws
          · simp [setPc, hcw] at h
          · simpa [setPc, hcw] using h
        · intro c m err hw
          rw [newEvents_eq sys.relay _ [Event.close ws] rfl] at hw
          simp at hw
      · cases hstep
    · cases hstep
  | read ws frame =>
    simp only [step] at hstep
    split at hstep
    · rename_i hpc
      cases frame with
      | error e =>
        obtain ⟨ha, hb, hc, he, hnd⟩ := hinv
        simp only [readTurn] at hstep
        cases hstep
        have hnof : ∀ c, failedWrite c (sys.relay.trace ++ [Event.read ws none]
            ++ [Event.close ws]) ↔ failedWrite c sys.relay.trace := by
          intro c
          rw [failedWrite_append, failedWrite_append]
          constructor
          · rintro ((h | h) | h)
            · exact h
            · obtain ⟨_, _, hmem, _⟩ := h
              simp at hmem
            · obtain ⟨_, _, hmem, _⟩ := h
              simp at hmem
          · exact fun h => Or.inl (Or.inl h)
        refine ⟨?_, ?_, ?_, ?_, nodup_deleteClient ws _ hnd⟩
        · intro c hcm
          simp only [Relay.log, mem_deleteClient] at hcm
          simpa [setPc, hcm.2] using ha c hcm.1
        · intro c hact
          by_cases hcw : c = ws
          · simp [setPc, hcw, Pc.active] at hact
          · have hact0 : (sys.pc c).active = true := by simpa [setPc, hcw] using hact
            simp only [Relay.log, mem_deleteClient]
            rw [hnof]
            rcases hb c hact0 with h | h
            · exact Or.inl ⟨h, hcw⟩
            · exact Or.inr h
        · intro c hcm
          simp only [Relay.log, mem_deleteClient] at hcm ⊢
          rw [hnof]
          exact hc c hcm.1
        · intro c m err hw hcon
          simp only [Relay.log, List.mem_append, List.mem_singleton, reduceCtorEq,
            or_false] at hw
          have hne := he c m err hw
          by_cases hcw : c = ws
          · simp [setPc, hcw] at hcon
          · exact hne (by simpa [setPc, hcw] using hcon)
      | ok m =>
        simp only [readTurn] at hstep
        cases hstep
        have hs : Shrinks sys.relay
            (({ sys.relay.log (Event.read ws (some m)) with
                broadcaster := sys.relay.broadcaster ++ [m] } : Relay).log (Event.send m)) :=
          Shrinks.intro [Event.read ws (some m), Event.send m]
            (by simp [Relay.log]) (List.Sublist.refl _)
            (fun c hc hn => absurd hc hn)
            (fun c _ hf => by
              obtain ⟨_, _, hmem, _⟩ := hf
              simp at hmem)
        apply registryInv_shrink sys _ _ hinv hs (fun _ h => h) (fun _ h => h) (fun _ h => h)
        intro c m1 err hw
        rw [newEvents_eq sys.relay _ [Event.read ws (some m), Event.send m]
          (by simp [Relay.log])] at hw
        simp at hw
    · cases hstep
  | broadcast =>
    simp only [step] at hstep
    split at hstep
    · cases hstep
    · split at hstep
      · rename_i s1 hturn
        cases hstep
        obtain ⟨hs, htg⟩ := handleMessagesTurn_returned env _ _ sys.relay s1 hturn
        apply registryInv_shrink sys s1 _ hinv hs (fun _ h => h) (fun _ h => h) (fun _ h => h)
        intro c m err hw hcon
        rcases hinv.1 c (htg c m err hw) with h | h
        · rw [hcon] at h
          cases h
        · rw [hcon] at h
          cases h
      · cases hstep

theorem run_preserves (env : Env) :
    ∀ (acts : List Action) (sys sys1 : System),
      RegistryInv sys → run env acts sys = some sys1 → RegistryInv sys1 := by
  intro acts
  induction acts with
  | nil =>
    intro sys sys1 hinv hrun
    simp only [run] at hrun
    cases hrun
    exact hinv
  | cons a rest ih =>
    intro sys sys1 hinv hrun
    simp only [run] at hrun
    split at hrun
    · rename_i sys2 hstep
      exact ih sys2 sys1 (step_preserves env sys sys2 a hinv hstep) hrun
    · cases hrun

theorem step_removal (env : Env) (sys sys1 : System) (a : Action)
    (hstep : step env sys a = some sys1) (c : Conn)
    (hc : c ∈ sys.relay.clients) (hn : c ∉ sys1.relay.clients) :
    (∃ e, a = Action.read c (Except.error e))
    ∨ failedWrite c (newEvents sys.relay sys1.relay) := by
  cases a with
  | register ws =>
    simp only [step] at hstep
    split at hstep
    · cases hstep
      exact absurd ((mem_addClient ws c _).mpr (Or.inl hc)) hn
    · cases hstep
  | replay ws =>
    simp only [step] at hstep
    split at hstep
    · split at hstep
      · rename_i s1 hrep
        cases hstep
        exact Or.inr ((replay_returned env ws sys.relay s1 hrep).1.2.2.1 c hc hn)
      · rename_i s1 hrep
        cases hstep
        have hs1 := replay_panicked env ws sys.relay s1 hrep
        subst hs1
        exact absurd hc hn
      · cases hstep
    · cases hstep
  | read ws frame =>
    simp only [step] at hstep
    split at hstep
    · cases frame with
      | error e =>
        simp only [readTurn] at hstep
        cases hstep
        simp only [Relay.log, mem_deleteClient, not_and, not_not] at hn
        have := hn hc
        subst this
        exact Or.inl ⟨e, rfl⟩
      | ok m =>
        simp only [readTurn] at hstep
        cases hstep
        exact absurd hc hn
    · cases hstep
  | broadcast =>
    simp only [step] at hstep
    split at hstep
    · cases hstep
    · split at hstep
      · rename_i s1 hturn
        cases hstep
        exact Or.inr
          ((handleMessagesTurn_returned env _ _ sys.relay s1 hturn).1.2.2.1 c hc hn)
      · cases hstep

/-- C8, as the code has it. In every state the relay reaches from its start by steps of
the handlers (register, replay, read a frame, deregister on a read error) and of the
broadcaster, for every connection whose handler has not ended in the panic of a failed
`LRange`: the connection is in the registry if and only if its handler has registered it
and has not yet deregistered (is active) and no write to it has failed with a non-graceful
error. No connection whose handler has deregistered is in the registry, the keys of the
registry are distinct, and a step removes a connection from the registry only if it is the
read error of that connection's own handler, or if the step wrote to that connection and
the write failed with a non-graceful error (the send path of the replay and of the
fan-out). What the registry holds for a handler that ended in the panic is left open. -/
theorem registry_members_active (env : Env) (history : List String) (acts : List Action)
    (sys : System) (hrun : run env acts (initial history) = some sys) :
    (∀ c, sys.pc c ≠ Pc.panicked →
      (c ∈ sys.relay.clients ↔
        ((sys.pc c).active = true ∧ ¬ failedWrite c sys.relay.trace)))
    ∧ (∀ c, sys.pc c = Pc.closed → c ∉ sys.relay.clients)
    ∧ sys.relay.clients.Nodup
    ∧ (∀ a sys1, step env sys a = some sys1 →
        ∀ c, c ∈ sys.relay.clients → c ∉ sys1.relay.clients →
          (∃ e, a = Action.read c (Except.error e))
          ∨ failedWrite c (newEvents sys.relay sys1.relay)) := by
  have hinit : RegistryInv (initial history) := by
    refine ⟨?_, ?_, ?_, ?_, ?_⟩
    · intro c hc
      simp [initial] at hc
    · intro c hc
      simp [initial, Pc.active] at hc
    · intro c hc
      simp [initial] at hc
    · intro c m err hw
      simp [initial] at hw
    · simp [initial]
  obtain ⟨ha, hb, hc, _, hnd⟩ := run_preserves env acts (initial history) sys hinit hrun
  refine ⟨?_, ?_, hnd, fun a sys1 hstep c hc1 hn => step_removal env sys sys1 a hstep c hc1 hn⟩
  · intro c hnp
    constructor
    · intro hmem
      refine ⟨?_, hc c hmem⟩
      rcases ha c hmem with h | h
      · exact h
      · exact absurd h hnp
    · rintro ⟨hact, hnf⟩
      rcases hb c hact with h | h
      · exact h
      · exact absurd h hnf
  · intro c hcl hmem
    rcases ha c hmem with h | h
    · rw [hcl] at h
      cases h
    · rw [hcl] at h
      cases h


/-- Witness of C8: the state after the replay of connection 5 has ended in a panic and
connection 6 has registered. -/
theorem registry_members_active_witness :
    (∀ c, afterPanic.pc c ≠ Pc.panicked →
      (c ∈ afterPanic.relay.clients ↔
        ((afterPanic.pc c).active = true ∧ ¬ failedWrite c afterPanic.relay.trace)))
    ∧ (∀ c, afterPanic.pc c = Pc.closed → c ∉ afterPanic.relay.clients)
    ∧ afterPanic.relay.clients.Nodup
    ∧ (∀ a sys1, step lrangeDownEnv afterPanic a = some sys1 →
        ∀ c, c ∈ afterPanic.relay.clients → c ∉ sys1.relay.clients →
          (∃ e, a = Action.read c (Except.error e))
          ∨ failedWrite c (newEvents afterPanic.relay sys1.relay)) :=
  registry_members_active lrangeDownEnv [marshal aliceHi] panicRun afterPanic rfl

/-- The state the invariant leaves open: when `LRange` fails, the replay of connection 5
panics, the deferred `Close` runs and the handler is gone, and connection 5 is still in
the registry. -/
theorem replay_panic_keeps_registered :
    handleConnections lrangeDownEnv (Except.ok 5) [] ⟨[], [], [marshal aliceHi], []⟩
        = Result.panicked ⟨[5], [], [marshal aliceHi], [Event.close 5]⟩
    ∧ ∃ sys, run lrangeDownEnv [Action.register 5, Action.replay 5]
          (initial [marshal aliceHi]) = some sys
        ∧ sys.pc 5 = Pc.panicked
        ∧ 5 ∈ sys.relay.clients := by
  refine ⟨rfl, _, rfl, ?_, ?_⟩ <;> decide

/-- Counterexample to C8: connection 2 registers, replays and sends a message, and the
fan-out of that message fails on it with a broken pipe. In the state reached the handler
of 2 is still in its read loop, registered and not deregistered, and 2 is not in the
registry; the step that removed it is the broadcaster's, not the handler's. -/
theorem registry_iff_fails :
    ∃ sys, run sampleEnv brokenPipeRun (initial []) = some sys
      ∧ sys.pc 2 = Pc.reading
      ∧ (sys.pc 2).active = true
      ∧ 2 ∉ sys.relay.clients
      ∧ ¬ (2 ∈ sys.relay.clients ↔ (sys.pc 2).active = true) := by
  refine ⟨_, rfl, ?_, ?_, ?_, ?_⟩ <;> decide


end Chat
